import Mathlib

/-!
A shallow embedding of the per-session subtask Assigner of the scheduling
supervisor (source file
`src/python/xorbits/_mars/services/scheduling/supervisor/assigner.py`).

Bands are `(address, name)` pairs of strings.  Python's dictionaries are
modelled as association lists with last-write-wins update semantics, sets
as lists used only through membership (plus a fixed, deterministic
iteration order standing in for Python's unspecified set order), and the
`np.random` stream as an oracle `r : Nat → Nat` together with a call
counter: the k-th call of `np.random.choice(n)` is modelled as
`r k % n`.  Fallible paths (raised exceptions) are modelled with
`Except`.  String comparison and `str.startswith` are modelled directly
on the underlying character lists so that everything evaluates inside
the kernel; Python compares strings lexicographically by code point,
which is exactly the order implemented here.
-/

abbrev Band := String × String

/-- Lexicographic strict comparison of character lists by code point;
models Python's string `<`. -/
def listLtB : List Char → List Char → Bool
  | [], [] => false
  | [], _ :: _ => true
  | _ :: _, [] => false
  | a :: as, b :: bs =>
    if a < b then true
    else if b < a then false
    else listLtB as bs

/-- Python string `<`. -/
def strLtB (a b : String) : Bool := listLtB a.data b.data

/-- Python tuple comparison `(a1,a2) <= (b1,b2)` on pairs of strings,
as the reflexive closure of the strict lexicographic order; this is the
order used by `sorted` on band tuples. -/
def bandLE (a b : Band) : Prop :=
  strLtB a.1 b.1 = true ∨ (a.1 = b.1 ∧ (strLtB a.2 b.2 = true ∨ a.2 = b.2))

instance : DecidableRel bandLE := fun _ _ => inferInstanceAs (Decidable (_ ∨ _))

/-- Models Python `s.startswith(p)`. -/
def hasPref (s p : String) : Bool := p.data.isPrefixOf s.data

/-- Device-class tag of a band: `"numa" if b[1].startswith("numa") else "gpu"`. -/
def deviceTag (b : Band) : String := if hasPref b.2 "numa" then "numa" else "gpu"

/-- Order on `(tag, band)` pairs used when the device-type index is built:
Python sorts the generator `(("numa"|"gpu", band) for band in bands)`
lexicographically. -/
def tagBandLE (a b : String × Band) : Prop :=
  strLtB a.1 b.1 = true ∨ (a.1 = b.1 ∧ bandLE a.2 b.2)

instance : DecidableRel tagBandLE := fun _ _ => inferInstanceAs (Decidable (_ ∨ _))

/-- First-match lookup in an association list, with a default;
models `d.get(k, default)` / `d[k]` on dictionaries whose keys are unique. -/
def lookupD {κ α : Type} [DecidableEq κ] : List (κ × α) → κ → α → α
  | [], _, d => d
  | p :: l, k, d => if p.1 = k then p.2 else lookupD l k d

/-- First-match lookup in an association list; `none` models a `KeyError`. -/
def lookupOpt {κ α : Type} [DecidableEq κ] : List (κ × α) → κ → Option α
  | [], _ => none
  | p :: l, k => if p.1 = k then some p.2 else lookupOpt l k

/-- Models `d[k] = v` on a Python dictionary: replaces the value of an
existing key in place, otherwise appends the new binding. -/
def dictSet {κ α : Type} [DecidableEq κ] (d : List (κ × α)) (k : κ) (v : α) :
    List (κ × α) :=
  if (d.map Prod.fst).contains k then
    d.map (fun p => if p.1 = k then (k, v) else p)
  else d ++ [(k, v)]

/-- Models `d.update(l)` on Python dictionaries. -/
def dictUpdate {κ α : Type} [DecidableEq κ] (d : List (κ × α)) (l : List (κ × α)) :
    List (κ × α) :=
  l.foldl (fun d p => dictSet d p.1 p.2) d

/-- Models `d[k] += v` on a `defaultdict(lambda: 0)`. -/
def dictAdd [DecidableEq κ] (d : List (κ × Int)) (k : κ) (v : Int) :
    List (κ × Int) :=
  if (d.map Prod.fst).contains k then
    d.map (fun p => if p.1 = k then (p.1, p.2 + v) else p)
  else d ++ [(k, v)]

/-- Sum of the values of an association list. -/
def sumVals {κ : Type} (d : List (κ × Int)) : Int := (d.map Prod.snd).sum

/-- Adds an element to a list when absent; models insertion into a Python
set (membership is all the code observes of these sets). -/
def insertNew [DecidableEq α] (l : List α) (a : α) : List α :=
  if l.contains a then l else l ++ [a]

/-- Groups consecutive elements that share a key; models
`itertools.groupby(l, key=key)`. -/
def groupRuns {α κ : Type} [DecidableEq κ] (key : α → κ) : List α → List (κ × List α)
  | [] => []
  | a :: as =>
    match groupRuns key as with
    | [] => [(key a, [a])]
    | (k, g) :: rest =>
      if key a = k then (k, a :: g) :: rest
      else (key a, [a]) :: (k, g) :: rest

/-- State of the `AssignerActor` that the scheduling decisions read:
the current band list and the two indexes derived from it. -/
structure AssignerState where
  bands : List Band
  addressToBands : List (String × List Band)
  deviceTypeToBands : List (String × List Band)
deriving DecidableEq

/-- Models `AssignerActor._update_bands`: stores the band list, groups the
sorted bands by address, and groups the `("numa"|"gpu", band)` pairs,
sorted, by device tag. -/
def updateBands (bands : List Band) : AssignerState :=
  { bands := bands
    addressToBands := groupRuns Prod.fst (List.insertionSort bandLE bands)
    deviceTypeToBands :=
      (groupRuns Prod.fst
          (List.insertionSort tagBandLE (bands.map (fun b => (deviceTag b, b))))).map
        (fun kg => (kg.1, kg.2.map Prod.snd)) }

/-- Exceptions the assigner can raise: `NoMatchingSlots`, `NoAvailableBand`,
a Python `KeyError` (unknown dictionary key), a `ValueError`
(`np.random.choice(0)`), and an `AssertionError`. -/
inductive AErr : Type
  | noMatchingSlots (cls : String)
  | noAvailableBand
  | keyError
  | valueError
  | assertionError
deriving DecidableEq

/-- Models `l[np.random.choice(len(l))]`: the oracle value at the current
counter, reduced modulo the length, indexes the list; an empty list is a
`ValueError`.  Returns the drawn element and the advanced counter. -/
def pick {α : Type} (r : Nat → Nat) (ctr : Nat) : List α → Except AErr (α × Nat)
  | [] => .error .valueError
  | a :: as =>
    .ok ((a :: as).get ⟨r ctr % (as.length + 1), Nat.mod_lt _ (Nat.succ_pos _)⟩,
      ctr + 1)

/-- Models `AssignerActor._get_device_bands`: reads the device-type index
(`.get(key) or []`) and raises `NoMatchingSlots("gpu"|"cpu")` when the
resulting list is empty. -/
def getDeviceBands (st : AssignerState) (isGpu : Bool) : Except AErr (List Band) :=
  let filtered := lookupD st.deviceTypeToBands (if isGpu then "gpu" else "numa") []
  if filtered = [] then .error (.noMatchingSlots (if isGpu then "gpu" else "cpu"))
  else .ok filtered

/-- Models `AssignerActor._get_random_band`.  When `exclude_bands` is
non-empty and some band of the device class avoids it, a random such band
is drawn; when all are excluded the call raises `NoAvailableBand` if
`random_when_unavailable` is false and otherwise falls through to a
random (hence excluded) band of the full device list. -/
def getRandomBand (st : AssignerState) (isGpu : Bool) (excl : List Band) (rwu : Bool)
    (r : Nat → Nat) (ctr : Nat) : Except AErr (Band × Nat) :=
  match getDeviceBands st isGpu with
  | .error e => .error e
  | .ok bands =>
    if excl ≠ [] then
      let avail := bands.filter (fun b => !excl.contains b)
      if avail ≠ [] then pick r ctr avail
      else if rwu = false then .error .noAvailableBand
      else pick r ctr bands
    else pick r ctr bands

/-- Kind of a chunk operand: the two marker classes the assigner
dispatches on, and anything else. -/
inductive OpKind : Type
  | fetch
  | fetchShuffle
  | compute
deriving DecidableEq

/-- The fields of a chunk that the assigner reads: its key, the
`is_broadcaster` flag, `op.gpu`, and the operand kind. -/
structure Chunk where
  key : String
  isBroadcaster : Bool
  gpu : Bool
  kind : OpKind
deriving DecidableEq

/-- The chunk graph as the assigner sees it: all nodes (for the GPU scan
`any(c.op.gpu for c in subtask.chunk_graph)`) and the independent source
nodes returned by `iter_indep()`. -/
structure ChunkGraph where
  nodes : List Chunk
  indep : List Chunk
deriving DecidableEq

/-- The subtask fields the assigner reads. -/
structure Subtask where
  subtaskId : String
  expectBands : List Band
  bandsSpecified : Bool
  graph : ChunkGraph
deriving DecidableEq

/-- Chunk metadata returned by the meta service for the requested fields. -/
structure ChunkMeta where
  storeSize : Int
  bands : List Band
deriving DecidableEq

/-- Required device class of a subtask: `any(c.op.gpu for c in chunk_graph)`. -/
def subtaskIsGpu (s : Subtask) : Bool := s.graph.nodes.any (fun c => c.gpu)

/-- Models the inner loop of the first pass of `assign_subtasks` over
`subtask.chunk_graph.iter_indep()`: `Fetch` sources record their key (and
broadcaster flag), the first `FetchShuffle` source selects a random band
and stops the scan, any other source is skipped. -/
def scanIndep (st : AssignerState) (excl : List Band) (rwu : Bool) (r : Nat → Nat)
    (isGpu : Bool) :
    List Chunk → List String → List String → Nat →
    Except AErr (List String × List String × Option (List Band) × Nat)
  | [], ik, bk, ctr => .ok (ik, bk, none, ctr)
  | c :: rest, ik, bk, ctr =>
    match c.kind with
    | .fetch =>
      scanIndep st excl rwu r isGpu rest (insertNew ik c.key)
        (if c.isBroadcaster then insertNew bk c.key else bk) ctr
    | .fetchShuffle =>
      match getRandomBand st isGpu excl rwu r ctr with
      | .error e => .error e
      | .ok (b, ctr1) => .ok (ik, bk, some [b], ctr1)
    | .compute => scanIndep st excl rwu r isGpu rest ik bk ctr

/-- Result of the first pass of `assign_subtasks`: the collected input
keys, the broadcaster keys, the `selected_bands` dictionary, and the
number of random draws consumed. -/
structure Phase1Out where
  inpKeys : List String
  bcastKeys : List String
  selected : List (String × List Band)
  ctr : Nat
deriving DecidableEq

/-- Models the first `for subtask in subtasks` loop of `assign_subtasks`:
a non-empty `expect_bands` is filtered to ready, non-excluded bands
(falling back to one random band when none remain); otherwise the
independent chunks are scanned. -/
def phase1 (st : AssignerState) (excl : List Band) (rwu : Bool) (r : Nat → Nat) :
    List Subtask → List String → List String → List (String × List Band) → Nat →
    Except AErr Phase1Out
  | [], ik, bk, sel, ctr => .ok ⟨ik, bk, sel, ctr⟩
  | s :: rest, ik, bk, sel, ctr =>
    if s.expectBands ≠ [] then
      let eab := s.expectBands.filter
        (fun b => st.bands.contains b && !excl.contains b)
      if eab = [] then
        match getRandomBand st (subtaskIsGpu s) excl rwu r ctr with
        | .error e => .error e
        | .ok (b, ctr1) =>
          phase1 st excl rwu r rest ik bk (dictSet sel s.subtaskId [b]) ctr1
      else phase1 st excl rwu r rest ik bk (dictSet sel s.subtaskId eab) ctr
    else
      match scanIndep st excl rwu r (subtaskIsGpu s) s.graph.indep ik bk ctr with
      | .error e => .error e
      | .ok (ik1, bk1, osel, ctr1) =>
        match osel with
        | some bs => phase1 st excl rwu r rest ik1 bk1 (dictSet sel s.subtaskId bs) ctr1
        | none => phase1 st excl rwu r rest ik1 bk1 sel ctr1

/-- Models the `inp_metas` dictionary after the broadcaster adjustment:
the meta of a broadcaster key has its `store_size` overwritten with 0. -/
def effMeta (meta : String → ChunkMeta) (bcast : List String) (k : String) :
    ChunkMeta :=
  if bcast.contains k then { meta k with storeSize := 0 } else meta k

/-- Models the `for band in meta["bands"]` loop of the second pass of
`assign_subtasks`: a resident band of the wrong device class is projected
onto same-address bands of the right class when possible (`KeyError` when
the address is not indexed), a band outside the device list or excluded
is replaced by a random band, and the chunk's store size is accumulated
onto the final band. -/
def accumBands (st : AssignerState) (excl : List Band) (rwu : Bool) (r : Nat → Nat)
    (isGpu : Bool) (pref : String) (filtered : List Band) (size : Int) :
    List Band → List (Band × Int) → Nat → Except AErr (List (Band × Int) × Nat)
  | [], bs, ctr => .ok (bs, ctr)
  | band :: rest, bs, ctr =>
    match
      (if hasPref band.2 pref then .ok (band, ctr)
       else
        match lookupOpt st.addressToBands band.1 with
        | none => .error .keyError
        | some abds =>
          let sel := abds.filter (fun b => hasPref b.2 pref && !excl.contains b)
          if sel ≠ [] then pick r ctr sel
          else .ok (band, ctr) : Except AErr (Band × Nat)) with
    | .error e => .error e
    | .ok (band1, ctr1) =>
      match
        (if !filtered.contains band1 || excl.contains band1 then
          getRandomBand st isGpu excl rwu r ctr1
         else .ok (band1, ctr1) : Except AErr (Band × Nat)) with
      | .error e => .error e
      | .ok (band2, ctr2) =>
        accumBands st excl rwu r isGpu pref filtered size rest
          (dictAdd bs band2 size) ctr2

/-- Models the `band_sizes` accumulation of the second pass of
`assign_subtasks` over the independent chunks of one subtask: only
`Fetch` sources contribute, through `accumBands`. -/
def accumSizes (st : AssignerState) (excl : List Band) (rwu : Bool) (r : Nat → Nat)
    (isGpu : Bool) (pref : String) (filtered : List Band) (em : String → ChunkMeta) :
    List Chunk → List (Band × Int) → Nat → Except AErr (List (Band × Int) × Nat)
  | [], bs, ctr => .ok (bs, ctr)
  | c :: rest, bs, ctr =>
    if c.kind ≠ OpKind.fetch then
      accumSizes st excl rwu r isGpu pref filtered em rest bs ctr
    else
      match accumBands st excl rwu r isGpu pref filtered (em c.key).storeSize
          (em c.key).bands bs ctr with
      | .error e => .error e
      | .ok (bs1, ctr1) => accumSizes st excl rwu r isGpu pref filtered em rest bs1 ctr1

/-- Models the maximum-selection loop of `assign_subtasks`: starting from
`bands = []`, `max_size = -1`, a strictly larger size restarts the
candidate list and an equal size appends to it. -/
def argmaxLoop : List (Band × Int) → List Band → Int → List Band
  | [], acc, _ => acc
  | (b, s) :: rest, acc, m =>
    if s > m then argmaxLoop rest [b] s
    else if s = m then argmaxLoop rest (acc ++ [b]) m
    else argmaxLoop rest acc m

/-- Models the body of the second `for subtask in subtasks` loop of
`assign_subtasks` up to the final random draw: the device list is fetched
(raising `NoMatchingSlots` when empty), then either the pre-selected
bands or the locality candidates of maximal accumulated size are drawn
from. -/
def chooseBandFor (st : AssignerState) (excl : List Band) (rwu : Bool)
    (r : Nat → Nat) (sel : List (String × List Band)) (em : String → ChunkMeta)
    (s : Subtask) (ctr : Nat) : Except AErr (Band × Nat) :=
  let isGpu := subtaskIsGpu s
  match getDeviceBands st isGpu with
  | .error e => .error e
  | .ok filtered =>
    match lookupOpt sel s.subtaskId with
    | some bs => pick r ctr bs
    | none =>
      match accumSizes st excl rwu r isGpu (if isGpu then "gpu" else "numa")
          filtered em s.graph.indep [] ctr with
      | .error e => .error e
      | .ok (sizes, ctr1) => pick r ctr1 (argmaxLoop sizes [] (-1))

/-- Models the second `for subtask in subtasks` loop of `assign_subtasks`:
after the band is drawn, `NoAvailableBand` is raised when
`random_when_unavailable` is false and the band is excluded, or when the
subtask has `bands_specified` and the band is outside `expect_bands`. -/
def phase3 (st : AssignerState) (excl : List Band) (rwu : Bool) (r : Nat → Nat)
    (sel : List (String × List Band)) (em : String → ChunkMeta) :
    List Subtask → Nat → Except AErr (List Band × Nat)
  | [], ctr => .ok ([], ctr)
  | s :: rest, ctr =>
    match chooseBandFor st excl rwu r sel em s ctr with
    | .error e => .error e
    | .ok (band, ctr1) =>
      if rwu = false ∧ excl.contains band then .error .noAvailableBand
      else if s.bandsSpecified = true ∧ ¬ s.expectBands.contains band = true then
        .error .noAvailableBand
      else
        match phase3 st excl rwu r sel em rest ctr1 with
        | .error e => .error e
        | .ok (bs, ctr2) => .ok (band :: bs, ctr2)

/-- Models `AssignerActor.assign_subtasks`.  `fresh` stands for the band
map fetched from the cluster API when the actor has not yet observed any
bands; `meta` is the meta service (`get_chunk_meta` restricted to the
`store_size` and `bands` fields); `r` is the random oracle. -/
def assignSubtasks (st : AssignerState) (fresh : List Band)
    (subtasks : List Subtask) (excl : List Band) (rwu : Bool)
    (meta : String → ChunkMeta) (r : Nat → Nat) : Except AErr (List Band) :=
  let st := if st.bands = [] then updateBands fresh else st
  match phase1 st excl rwu r subtasks [] [] [] 0 with
  | .error e => .error e
  | .ok p1 =>
    match phase3 st excl rwu r p1.selected (effMeta meta p1.bcastKeys) subtasks
        p1.ctr with
    | .error e => .error e
    | .ok (assigns, _) => .ok assigns

/-- Unready bands of one device-class pass of `reassign_subtasks`: bands
recorded in the queue map but absent from the current band list.  Python
builds this via `list(set(..) - set(..))`, whose order is unspecified;
the model fixes first-appearance order. -/
def unreadyOf (fb : List Band) (fq : List (Band × Int)) : List Band :=
  (fq.map Prod.fst).filter (fun b => !fb.contains b)

/-- New-ready bands of one pass: current bands absent from the queue map. -/
def newReadyOf (fb : List Band) (fq : List (Band × Int)) : List Band :=
  fb.filter (fun b => !(fq.map Prod.fst).contains b)

/-- The working queue map of one pass: when there is no new-ready band
and some band is unready, the map is restricted to the unready bands. -/
def workingQ (fb : List Band) (fq : List (Band × Int)) : List (Band × Int) :=
  if newReadyOf fb fq = [] ∧ unreadyOf fb fq ≠ [] then
    (unreadyOf fb fq).map (fun k => (k, lookupD fq k 0))
  else fq

/-- Models `mean = int(num_all_subtasks / len(filtered_bands))`.  Python
divides as floats and truncates toward zero; the model uses exact
truncating division, which agrees whenever the quotient is exactly
representable (in particular for all workloads below 2^53 subtasks). -/
def meanOf (fb : List Band) (fq : List (Band × Int)) : Int :=
  Int.tdiv (sumVals (workingQ fb fq)) fb.length

/-- The differential step of one band: `mean - count` for a ready band,
`-count` for an unready one. -/
def deltaFor (fb : List Band) (wq : List (Band × Int)) (mean : Int) (b : Band) :
    Int :=
  if fb.contains b then mean - lookupD wq b 0 else -(lookupD wq b 0)

/-- The `band_move_nums` dictionary of one pass before the residual
credit: every band of `filtered_bands ∪ keys(working map)` is mapped to
its delta.  Python iterates `list(set | set)` in unspecified order; the
model keeps a fixed deduplicated order. -/
def bandMoveNums (fb : List Band) (fq : List (Band × Int)) : List (Band × Int) :=
  ((fb ++ (workingQ fb fq).map Prod.fst).dedup).map
    (fun b => (b, deltaFor fb (workingQ fb fq) (meanOf fb fq) b))

/-- The tail of one device-class pass of `reassign_subtasks`: the
`assert total_move <= 0` (an `AssertionError` when positive), and the
credit of `-total_move` to one random CPU band — a `KeyError` when that
CPU band is not a key of this pass's `band_move_nums`. -/
def mainPass (st : AssignerState) (r : Nat → Nat) (ctr : Nat) (fb : List Band)
    (fq : List (Band × Int)) : Except AErr (List (Band × Int) × Nat) :=
  let bmn := bandMoveNums fb fq
  let total := sumVals bmn
  if total > 0 then .error .assertionError
  else if total ≠ 0 then
    match getRandomBand st false [] true r ctr with
    | .error e => .error e
    | .ok (cb, ctr1) =>
      if (bmn.map Prod.fst).contains cb then
        .ok (bmn.map (fun p => if p.1 = cb then (p.1, p.2 - total) else p), ctr1)
      else .error .keyError
  else .ok (bmn, ctr)

/-- One device-class pass of `reassign_subtasks`, including the early
exits: nothing when the class has no ready band, and `{band: 0}` when the
queue map has exactly one entry that is either empty or the only ready
band. -/
def reassignPass (st : AssignerState) (r : Nat → Nat) (ctr : Nat)
    (q : List (Band × Int)) (isGpu : Bool) : Except AErr (List (Band × Int) × Nat) :=
  let pref := if isGpu then "gpu" else "numa"
  let fb := st.bands.filter (fun b => hasPref b.2 pref)
  let fq := q.filter (fun p => hasPref p.1.2 pref)
  if fb = [] then .ok ([], ctr)
  else
    match fq with
    | [(b, v)] =>
      if v = 0 then .ok ([(b, 0)], ctr)
      else if fb.length = 1 ∧ fb.head? = some b then .ok ([(b, 0)], ctr)
      else mainPass st r ctr fb fq
    | _ => mainPass st r ctr fb fq

/-- Order by queue delta, used for the final
`dict(sorted(items, key=lambda item: item[1]))`. -/
def valLE (a b : Band × Int) : Prop := a.2 ≤ b.2

instance : DecidableRel valLE := fun _ _ => inferInstanceAs (Decidable (_ ≤ _))

/-- Models `AssignerActor.reassign_subtasks`: the CPU pass then the GPU
pass update one dictionary, which is returned sorted by ascending delta. -/
def reassignSubtasks (st : AssignerState) (r : Nat → Nat)
    (q : List (Band × Int)) : Except AErr (List (Band × Int)) :=
  match reassignPass st r 0 q false with
  | .error e => .error e
  | .ok (cpu, ctr1) =>
    match reassignPass st r ctr1 q true with
    | .error e => .error e
    | .ok (gpu, _) =>
      .ok (List.insertionSort valLE (dictUpdate (dictUpdate [] cpu) gpu))

/-- Accumulated maximum used to reason about the maximum-selection loop. -/
def finalMax (l : List (Band × Int)) (m : Int) : Int :=
  l.foldl (fun acc p => max acc p.2) m

/-- Concrete CPU band `B1 = (A, numa-0)` of the specification scenarios. -/
def bandA : Band := ("A", "numa-0")

/-- Concrete CPU band `B2 = (B, numa-0)` of the specification scenarios. -/
def bandB : Band := ("B", "numa-0")

/-- Concrete CPU band `B3 = (C, numa-0)` used by the rebalance scenarios. -/
def bandC : Band := ("C", "numa-0")

/-- Concrete GPU band used to exercise `NoMatchingSlots`. -/
def bandG : Band := ("A", "gpu-0")

/-- A fixed random oracle (always draws index 0). -/
def r0 : Nat → Nat := fun _ => 0

/-- Assigner state watching bands `B1, B2`. -/
def stS1 : AssignerState := updateBands [bandA, bandB]

/-- Assigner state watching bands `B1, B2, B3`. -/
def stS4 : AssignerState := updateBands [bandA, bandB, bandC]

/-- Assigner state watching only band `B1`. -/
def stOneA : AssignerState := updateBands [bandA]

/-- Assigner state watching only a GPU band. -/
def stGpuOnly : AssignerState := updateBands [bandG]

/-- A CPU `Fetch` source chunk. -/
def chunkFetch (k : String) (bc : Bool) : Chunk := ⟨k, bc, false, OpKind.fetch⟩

/-- A CPU `FetchShuffle` source chunk. -/
def chunkShuffle : Chunk := ⟨"cs", false, false, OpKind.fetchShuffle⟩

/-- Scenario S1 subtask: two `Fetch` inputs `c1`, `c2`. -/
def subLoc : Subtask :=
  ⟨"s1", [], false,
    ⟨[chunkFetch "c1" false, chunkFetch "c2" false],
     [chunkFetch "c1" false, chunkFetch "c2" false]⟩⟩

/-- Scenario S2 subtask: `Fetch` inputs `c1` (a broadcaster) and `c2`. -/
def subBc : Subtask :=
  ⟨"s2", [], false,
    ⟨[chunkFetch "c1" true, chunkFetch "c2" false],
     [chunkFetch "c1" true, chunkFetch "c2" false]⟩⟩

/-- A subtask with `expect_bands = [B1]` and `bands_specified`. -/
def subSpec : Subtask := ⟨"s3", [bandA], true, ⟨[], []⟩⟩

/-- A subtask with a single `Fetch` input `c1`. -/
def subFetch1 : Subtask := ⟨"s4", [], false, ⟨[chunkFetch "c1" false], [chunkFetch "c1" false]⟩⟩

/-- A subtask whose only source is a `FetchShuffle`. -/
def subShuffle : Subtask := ⟨"s5", [], false, ⟨[chunkShuffle], [chunkShuffle]⟩⟩

/-- Scenario S1 metadata: `c1` of size 100 on `B1`, `c2` of size 10 on `B2`. -/
def metaS1 : String → ChunkMeta := fun k =>
  if k = "c1" then ⟨100, [bandA]⟩ else if k = "c2" then ⟨10, [bandB]⟩ else ⟨0, []⟩

/-- Scenario S2 metadata: `c1` of size 1000 on `B1`, `c2` of size 5 on `B2`. -/
def metaS2 : String → ChunkMeta := fun k =>
  if k = "c1" then ⟨1000, [bandA]⟩ else if k = "c2" then ⟨5, [bandB]⟩ else ⟨0, []⟩

/-- Scenario S2 metadata with a different size for the broadcaster `c1`. -/
def metaS2b : String → ChunkMeta := fun k =>
  if k = "c1" then ⟨77, [bandA]⟩ else if k = "c2" then ⟨5, [bandB]⟩ else ⟨0, []⟩

/-- Metadata placing every chunk on `B1` with size 100. -/
def metaOnA : String → ChunkMeta := fun _ => ⟨100, [bandA]⟩

theorem listLtB_irrefl (as : List Char) : listLtB as as = false := by
  induction as with
  | nil => rfl
  | cons a t ih => rw [listLtB, if_neg (lt_irrefl a), if_neg (lt_irrefl a)]; exact ih

theorem listLtB_asymm : ∀ as bs : List Char, listLtB as bs = true → listLtB bs as = false := by
  intro as
  induction as with
  | nil =>
    intro bs h
    cases bs with
    | nil => simpa [listLtB] using h
    | cons b u => rfl
  | cons a t ih =>
    intro bs h
    cases bs with
    | nil => simpa [listLtB] using h
    | cons b u =>
      by_cases hab : a < b
      · rw [listLtB, if_neg (asymm hab), if_pos hab]
      · by_cases hba : b < a
        · rw [listLtB, if_neg hab, if_pos hba] at h
          simp at h
        · rw [listLtB, if_neg hab, if_neg hba] at h
          rw [listLtB, if_neg hba, if_neg hab]
          exact ih u h

theorem listLtB_trans : ∀ as bs cs : List Char,
    listLtB as bs = true → listLtB bs cs = true → listLtB as cs = true := by
  intro as
  induction as with
  | nil =>
    intro bs cs h1 h2
    cases bs with
    | nil => simpa [listLtB] using h1
    | cons b u =>
      cases cs with
      | nil => simpa [listLtB] using h2
      | cons c v => rfl
  | cons a t ih =>
    intro bs cs h1 h2
    cases bs with
    | nil => simpa [listLtB] using h1
    | cons b u =>
      cases cs with
      | nil => simpa [listLtB] using h2
      | cons c v =>
        by_cases hab : a < b
        · by_cases hbc : b < c
          · rw [listLtB, if_pos (lt_trans hab hbc)]
          · by_cases hcb : c < b
            · rw [listLtB, if_neg hbc, if_pos hcb] at h2
              simp at h2
            · have hbceq : b = c := by
                rcases lt_trichotomy b c with h | h | h
                · exact absurd h hbc
                · exact h
                · exact absurd h hcb
              rw [listLtB, if_pos (hbceq ▸ hab)]
        · by_cases hba : b < a
          · rw [listLtB, if_neg hab, if_pos hba] at h1
            simp at h1
          · have habeq : a = b := by
              rcases lt_trichotomy a b with h | h | h
              · exact absurd h hab
              · exact h
              · exact absurd h hba
            subst habeq
            rw [listLtB, if_neg hab, if_neg hba] at h1
            by_cases hbc : a < c
            · rw [listLtB, if_pos hbc]
            · by_cases hcb : c < a
              · rw [listLtB, if_neg hbc, if_pos hcb] at h2
                simp at h2
              · rw [listLtB, if_neg hbc, if_neg hcb] at h2 ⊢
                exact ih u v h1 h2

theorem listLtB_trichotomy : ∀ as bs : List Char,
    listLtB as bs = true ∨ as = bs ∨ listLtB bs as = true := by
  intro as
  induction as with
  | nil =>
    intro bs
    cases bs with
    | nil => exact Or.inr (Or.inl rfl)
    | cons b u => exact Or.inl rfl
  | cons a t ih =>
    intro bs
    cases bs with
    | nil => exact Or.inr (Or.inr rfl)
    | cons b u =>
      rcases lt_trichotomy a b with h | h | h
      · exact Or.inl (by rw [listLtB, if_pos h])
      · subst h
        rcases ih u with h2 | h2 | h2
        · exact Or.inl (by rw [listLtB, if_neg (lt_irrefl a), if_neg (lt_irrefl a)]; exact h2)
        · exact Or.inr (Or.inl (by rw [h2]))
        · exact Or.inr (Or.inr (by rw [listLtB, if_neg (lt_irrefl a), if_neg (lt_irrefl a)]; exact h2))
      · exact Or.inr (Or.inr (by rw [listLtB, if_pos h]))

theorem strLtB_irrefl (a : String) : strLtB a a = false := listLtB_irrefl a.data

theorem strLtB_asymm (a b : String) : strLtB a b = true → strLtB b a = false :=
  listLtB_asymm a.data b.data

theorem strLtB_trans (a b c : String) :
    strLtB a b = true → strLtB b c = true → strLtB a c = true :=
  listLtB_trans a.data b.data c.data

theorem strLtB_trichotomy (a b : String) :
    strLtB a b = true ∨ a = b ∨ strLtB b a = true := by
  rcases listLtB_trichotomy a.data b.data with h | h | h
  · exact Or.inl h
  · refine Or.inr (Or.inl ?_)
    cases a
    cases b
    exact congrArg String.mk h
  · exact Or.inr (Or.inr h)

theorem bandLE_total (a b : Band) : bandLE a b ∨ bandLE b a := by
  rcases strLtB_trichotomy a.1 b.1 with h | h | h
  · exact Or.inl (Or.inl h)
  · rcases strLtB_trichotomy a.2 b.2 with h2 | h2 | h2
    · exact Or.inl (Or.inr ⟨h, Or.inl h2⟩)
    · exact Or.inl (Or.inr ⟨h, Or.inr h2⟩)
    · exact Or.inr (Or.inr ⟨h.symm, Or.inl h2⟩)
  · exact Or.inr (Or.inl h)

theorem bandLE_trans (a b c : Band) : bandLE a b → bandLE b c → bandLE a c := by
  rintro (h1 | ⟨e1, h1⟩) (h2 | ⟨e2, h2⟩)
  · exact Or.inl (strLtB_trans _ _ _ h1 h2)
  · exact Or.inl (e2 ▸ h1)
  · exact Or.inl (e1.symm ▸ h2)
  · refine Or.inr ⟨e1.trans e2, ?_⟩
    rcases h1 with h1 | h1 <;> rcases h2 with h2 | h2
    · exact Or.inl (strLtB_trans _ _ _ h1 h2)
    · exact Or.inl (h2 ▸ h1)
    · exact Or.inl (h1.symm ▸ h2)
    · exact Or.inr (h1.trans h2)

theorem bandLE_antisymm (a b : Band) : bandLE a b → bandLE b a → a = b := by
  rintro (h1 | ⟨e1, h1⟩) (h2 | ⟨e2, h2⟩)
  · rw [strLtB_asymm _ _ h1] at h2
    simp at h2
  · rw [e2] at h1
    rw [strLtB_irrefl] at h1
    simp at h1
  · rw [e1] at h2
    rw [strLtB_irrefl] at h2
    simp at h2
  · have e2 : a.2 = b.2 := by
      rcases h1 with h1 | h1 <;> rcases h2 with h2 | h2
      · rw [strLtB_asymm _ _ h1] at h2
        simp at h2
      · exact h2.symm
      · exact h1
      · exact h1
    cases a
    cases b
    simp only at e1 e2
    rw [e1, e2]

theorem tagBandLE_total (a b : String × Band) : tagBandLE a b ∨ tagBandLE b a := by
  rcases strLtB_trichotomy a.1 b.1 with h | h | h
  · exact Or.inl (Or.inl h)
  · rcases bandLE_total a.2 b.2 with h2 | h2
    · exact Or.inl (Or.inr ⟨h, h2⟩)
    · exact Or.inr (Or.inr ⟨h.symm, h2⟩)
  · exact Or.inr (Or.inl h)

theorem tagBandLE_trans (a b c : String × Band) :
    tagBandLE a b → tagBandLE b c → tagBandLE a c := by
  rintro (h1 | ⟨e1, h1⟩) (h2 | ⟨e2, h2⟩)
  · exact Or.inl (strLtB_trans _ _ _ h1 h2)
  · exact Or.inl (e2 ▸ h1)
  · exact Or.inl (e1.symm ▸ h2)
  · exact Or.inr ⟨e1.trans e2, bandLE_trans _ _ _ h1 h2⟩

theorem tagBandLE_antisymm (a b : String × Band) :
    tagBandLE a b → tagBandLE b a → a = b := by
  rintro (h1 | ⟨e1, h1⟩) (h2 | ⟨e2, h2⟩)
  · rw [strLtB_asymm _ _ h1] at h2
    simp at h2
  · rw [e2] at h1
    rw [strLtB_irrefl] at h1
    simp at h1
  · rw [e1] at h2
    rw [strLtB_irrefl] at h2
    simp at h2
  · have e2 : a.2 = b.2 := bandLE_antisymm _ _ h1 h2
    cases a
    cases b
    simp only at e1 e2
    rw [e1, e2]

theorem pick_mem {α : Type} {r : Nat → Nat} {ctr : Nat} {l : List α} {a : α}
    {c : Nat} (h : pick r ctr l = .ok (a, c)) : a ∈ l := by
  cases l with
  | nil => simp [pick] at h
  | cons x xs =>
    rw [pick] at h
    injection h with h
    injection h with h1 _
    exact h1 ▸ List.get_mem _ _ _

theorem pick_singleton {α : Type} (r : Nat → Nat) (ctr : Nat) (a : α) :
    pick r ctr [a] = .ok (a, ctr + 1) := by
  have h : ([a] : List α).get
      ⟨r ctr % (List.length ([] : List α) + 1), Nat.mod_lt _ (Nat.succ_pos _)⟩ = a :=
    List.mem_singleton.mp (List.get_mem _ _ _)
  calc pick r ctr [a]
      = .ok (([a] : List α).get
          ⟨r ctr % (List.length ([] : List α) + 1), Nat.mod_lt _ (Nat.succ_pos _)⟩,
        ctr + 1) := rfl
    _ = .ok (a, ctr + 1) := by rw [h]

theorem sumVals_append {κ : Type} (d l : List (κ × Int)) :
    sumVals (d ++ l) = sumVals d + sumVals l := by
  simp [sumVals]

theorem sumVals_perm {κ : Type} {l₁ l₂ : List (κ × Int)} (h : l₁.Perm l₂) :
    sumVals l₁ = sumVals l₂ :=
  (h.map Prod.snd).sum_eq

theorem lookupD_map_self {κ α : Type} [DecidableEq κ] (f : κ → α) (d : α) :
    ∀ (l : List κ) (b : κ), b ∈ l →
      lookupD (l.map (fun x => (x, f x))) b d = f b := by
  intro l
  induction l with
  | nil =>
    intro b hb
    simp at hb
  | cons a t ih =>
    intro b hb
    by_cases hab : a = b
    · subst hab
      simp [lookupD]
    · rcases List.mem_cons.mp hb with h | h
      · exact absurd h.symm hab
      · simpa [lookupD, hab] using ih b h

theorem map_fst_pairs {κ α : Type} (f : κ → α) (l : List κ) :
    (l.map (fun x => (x, f x))).map Prod.fst = l := by
  induction l with
  | nil => rfl
  | cons a t ih => simp only [List.map_cons, ih]

theorem sum_map_adjust {κ : Type} [DecidableEq κ] (f : κ → Int) (t : Int) (cb : κ) :
    ∀ l : List κ, l.Nodup → cb ∈ l →
      (l.map (fun x => if x = cb then f x - t else f x)).sum = (l.map f).sum - t := by
  intro l
  induction l with
  | nil =>
    intro _ h
    simp at h
  | cons a u ih =>
    intro hnd hm
    rw [List.map_cons, List.map_cons, List.sum_cons, List.sum_cons]
    by_cases hac : a = cb
    · rw [if_pos hac]
      have hrest : u.map (fun x => if x = cb then f x - t else f x) = u.map f := by
        apply List.map_congr_left
        intro x hx
        rw [if_neg]
        intro heq
        have hau : a ∈ u := by
          rw [hac, ← heq]
          exact hx
        exact (List.nodup_cons.mp hnd).1 hau
      rw [hrest]
      ring
    · have hm' : cb ∈ u := by
        rcases List.mem_cons.mp hm with h | h
        · exact absurd h.symm hac
        · exact h
      rw [if_neg hac, ih (List.nodup_cons.mp hnd).2 hm']
      ring

theorem dictSet_not_mem {κ α : Type} [DecidableEq κ] (d : List (κ × α)) (k : κ)
    (v : α) (h : k ∉ d.map Prod.fst) : dictSet d k v = d ++ [(k, v)] := by
  rw [dictSet, if_neg]
  simp [h]

theorem dictUpdate_eq_append {κ α : Type} [DecidableEq κ] :
    ∀ (l d : List (κ × α)), (l.map Prod.fst).Nodup →
      (∀ k ∈ l.map Prod.fst, k ∉ d.map Prod.fst) → dictUpdate d l = d ++ l := by
  intro l
  induction l with
  | nil =>
    intro d _ _
    simp [dictUpdate]
  | cons p t ih =>
    intro d hnd hdis
    have h1 : dictSet d p.1 p.2 = d ++ [p] := by
      rw [dictSet_not_mem d p.1 p.2 (hdis p.1 (by simp))]
    have hnd' : p.1 ∉ t.map Prod.fst ∧ (t.map Prod.fst).Nodup := by
      rw [List.map_cons] at hnd
      exact List.nodup_cons.mp hnd
    have h2 : dictUpdate (d ++ [p]) t = (d ++ [p]) ++ t := by
      apply ih
      · exact hnd'.2
      · intro k hk
        have hk1 : k ∉ d.map Prod.fst := by
          apply hdis k
          rw [List.map_cons]
          exact List.mem_cons_of_mem _ hk
        have hk2 : k ≠ p.1 := fun he => hnd'.1 (he ▸ hk)
        rw [List.map_append]
        intro hmem
        rcases List.mem_append.mp hmem with h | h
        · exact hk1 h
        · simp at h
          exact hk2 h
    calc dictUpdate d (p :: t)
        = dictUpdate (dictSet d p.1 p.2) t := by rw [dictUpdate, List.foldl_cons]; rfl
      _ = dictUpdate (d ++ [p]) t := by rw [h1]
      _ = (d ++ [p]) ++ t := h2
      _ = d ++ p :: t := by simp

theorem reassign_ok_shape {st : AssignerState} {r : Nat → Nat} {q m : List (Band × Int)}
    (h : reassignSubtasks st r q = .ok m) :
    ∃ cpu gpu ctr1 ctr2, reassignPass st r 0 q false = .ok (cpu, ctr1) ∧
      reassignPass st r ctr1 q true = .ok (gpu, ctr2) ∧
      m = List.insertionSort valLE (dictUpdate (dictUpdate [] cpu) gpu) := by
  rw [reassignSubtasks] at h
  cases h1 : reassignPass st r 0 q false with
  | error e =>
    rw [h1] at h
    simp at h
  | ok p =>
    obtain ⟨cpu, ctr1⟩ := p
    rw [h1] at h
    simp only [] at h
    cases h2 : reassignPass st r ctr1 q true with
    | error e =>
      rw [h2] at h
      simp at h
    | ok p2 =>
      obtain ⟨gpu, ctr2⟩ := p2
      rw [h2] at h
      simp at h
      exact ⟨cpu, gpu, ctr1, ctr2, rfl, h2, h.symm⟩

theorem adjust_comp (l : List Band) (f : Band → Int) (cb : Band) (t : Int) :
    (l.map (fun x => (x, f x))).map (fun p => if p.1 = cb then (p.1, p.2 - t) else p)
      = l.map (fun x => (x, if x = cb then f x - t else f x)) := by
  rw [List.map_map]
  apply List.map_congr_left
  intro x _
  by_cases h : x = cb
  · simp [Function.comp, h]
  · simp [Function.comp, h]

theorem sum_pairs (l : List Band) (f : Band → Int) :
    sumVals (l.map (fun x => (x, f x))) = (l.map f).sum := by
  rw [sumVals, List.map_map]
  congr 1

theorem bandMoveNums_keys (fb : List Band) (fq : List (Band × Int)) :
    (bandMoveNums fb fq).map Prod.fst
      = (fb ++ (workingQ fb fq).map Prod.fst).dedup :=
  map_fst_pairs _ _

theorem mainPass_ok_facts {st : AssignerState} {r : Nat → Nat} {ctr : Nat}
    {fb : List Band} {fq l : List (Band × Int)} {c : Nat}
    (h : mainPass st r ctr fb fq = .ok (l, c)) :
    sumVals l = 0 ∧ l.map Prod.fst = (fb ++ (workingQ fb fq).map Prod.fst).dedup := by
  rw [mainPass] at h
  by_cases ht : sumVals (bandMoveNums fb fq) > 0
  · rw [if_pos ht] at h
    simp at h
  · rw [if_neg ht] at h
    by_cases hz : sumVals (bandMoveNums fb fq) ≠ 0
    · rw [if_pos hz] at h
      cases hg : getRandomBand st false [] true r ctr with
      | error e =>
        rw [hg] at h
        simp at h
      | ok p =>
        obtain ⟨cb, ctr1⟩ := p
        rw [hg] at h
        simp only [] at h
        by_cases hcb : ((bandMoveNums fb fq).map Prod.fst).contains cb = true
        · rw [if_pos hcb] at h
          simp at h
          obtain ⟨hl, _⟩ := h
          have hmem : cb ∈ (fb ++ (workingQ fb fq).map Prod.fst).dedup := by
            rw [bandMoveNums_keys] at hcb
            simpa using hcb
          constructor
          · rw [← hl, bandMoveNums, adjust_comp]
            rw [sum_pairs]
            rw [sum_map_adjust _ _ _ _ (List.nodup_dedup _) hmem]
            have : sumVals (bandMoveNums fb fq)
                = ((fb ++ (workingQ fb fq).map Prod.fst).dedup.map
                    (fun b => deltaFor fb (workingQ fb fq) (meanOf fb fq) b)).sum := by
              rw [bandMoveNums, sum_pairs]
            rw [← this]
            have h3 : sumVals
                (List.map (fun b => (b, deltaFor fb (workingQ fb fq) (meanOf fb fq) b))
                  (fb ++ List.map Prod.fst (workingQ fb fq)).dedup)
                = sumVals (bandMoveNums fb fq) := by rw [bandMoveNums]
            rw [h3]
            ring
          · rw [← hl, bandMoveNums, adjust_comp, map_fst_pairs]
        · rw [if_neg hcb] at h
          simp at h
    · rw [if_neg hz] at h
      simp at h
      obtain ⟨hl, _⟩ := h
      push_neg at hz
      constructor
      · rw [← hl]
        exact hz
      · rw [← hl, bandMoveNums_keys]

theorem workingQ_keys_sub (fb : List Band) (fq : List (Band × Int)) :
    ∀ k ∈ (workingQ fb fq).map Prod.fst, k ∈ fq.map Prod.fst := by
  rw [workingQ]
  split
  · intro k hk
    rw [map_fst_pairs] at hk
    rw [unreadyOf] at hk
    exact (List.mem_filter.mp hk).1
  · intro k hk
    exact hk

theorem pref_clash (s : String) :
    hasPref s "numa" = true → hasPref s "gpu" = true → False := by
  intro h1 h2
  rw [hasPref] at h1 h2
  obtain ⟨t1, ht1⟩ := List.isPrefixOf_iff_prefix.mp h1
  obtain ⟨t2, ht2⟩ := List.isPrefixOf_iff_prefix.mp h2
  have hh : ("numa".data ++ t1).head? = ("gpu".data ++ t2).head? := by
    rw [ht1, ht2]
  have hn : ("numa".data ++ t1).head? = some 'n' := rfl
  have hg : ("gpu".data ++ t2).head? = some 'g' := rfl
  rw [hn, hg] at hh
  exact absurd hh (by decide)

theorem mainPass_facts_full {st : AssignerState} {r : Nat → Nat} {ctr : Nat}
    {q FQ l : List (Band × Int)} {c : Nat} {g : Bool}
    (hfq : q.filter (fun p => hasPref p.1.2 (if g then "gpu" else "numa")) = FQ)
    (h : mainPass st r ctr
        (st.bands.filter (fun b => hasPref b.2 (if g then "gpu" else "numa"))) FQ
      = .ok (l, c)) :
    sumVals l = 0 ∧
      (∀ p ∈ l, hasPref p.1.2 (if g then "gpu" else "numa") = true) ∧
      (l.map Prod.fst).Nodup := by
  obtain ⟨hs, hk⟩ := mainPass_ok_facts h
  refine ⟨hs, ?_, ?_⟩
  · intro p hp
    have hp1 : p.1 ∈ l.map Prod.fst := List.mem_map.mpr ⟨p, hp, rfl⟩
    rw [hk, List.mem_dedup] at hp1
    rcases List.mem_append.mp hp1 with hm | hm
    · exact (List.mem_filter.mp hm).2
    · have hq := workingQ_keys_sub _ _ _ hm
      rw [← hfq] at hq
      obtain ⟨p2, hp2, he⟩ := List.mem_map.mp hq
      have hpred := (List.mem_filter.mp hp2).2
      rw [he] at hpred
      exact hpred
  · rw [hk]
    exact List.nodup_dedup _

theorem reassignPass_ok_facts {st : AssignerState} {r : Nat → Nat} {ctr : Nat}
    {q l : List (Band × Int)} {c : Nat} {g : Bool}
    (h : reassignPass st r ctr q g = .ok (l, c)) :
    sumVals l = 0 ∧
      (∀ p ∈ l, hasPref p.1.2 (if g then "gpu" else "numa") = true) ∧
      (l.map Prod.fst).Nodup := by
  rw [reassignPass] at h
  by_cases hfb : st.bands.filter (fun b => hasPref b.2 (if g then "gpu" else "numa")) = []
  · rw [if_pos hfb] at h
    simp at h
    obtain ⟨hl, _⟩ := h
    subst hl
    exact ⟨rfl, by intro p hp; simp at hp, List.nodup_nil⟩
  · rw [if_neg hfb] at h
    generalize hfq : q.filter (fun p => hasPref p.1.2 (if g then "gpu" else "numa")) = FQ at h
    cases FQ with
    | nil => exact mainPass_facts_full hfq h
    | cons p0 t =>
      cases t with
      | cons p1 t2 => exact mainPass_facts_full hfq h
      | nil =>
        obtain ⟨b, v⟩ := p0
        have hbpred : hasPref b.2 (if g then "gpu" else "numa") = true := by
          have hm : (b, v) ∈ q.filter
              (fun p => hasPref p.1.2 (if g then "gpu" else "numa")) := by
            rw [hfq]
            simp
          exact (List.mem_filter.mp hm).2
        simp only [] at h
        by_cases hv : v = 0
        · rw [if_pos hv] at h
          simp at h
          obtain ⟨hl, _⟩ := h
          subst hl
          refine ⟨rfl, ?_, by simp⟩
          intro p hp
          simp at hp
          rw [hp]
          exact hbpred
        · rw [if_neg hv] at h
          by_cases hone :
              (st.bands.filter (fun b => hasPref b.2 (if g then "gpu" else "numa"))).length = 1
              ∧ (st.bands.filter (fun b => hasPref b.2 (if g then "gpu" else "numa"))).head?
                = some b
          · rw [if_pos hone] at h
            simp at h
            obtain ⟨hl, _⟩ := h
            subst hl
            refine ⟨rfl, ?_, by simp⟩
            intro p hp
            simp at hp
            rw [hp]
            exact hbpred
          · rw [if_neg hone] at h
            exact mainPass_facts_full hfq h

/-- Claim C1: for every input map `band_to_queued_num`, whenever
`reassign_subtasks` returns a map, its values sum to zero: each
device-class pass produces deltas summing to zero (the negative residual
left by the floored mean, when any, is credited to one CPU band), and the
two passes touch disjoint keys. -/
theorem claimC1 (st : AssignerState) (r : Nat → Nat) (q m : List (Band × Int))
    (h : reassignSubtasks st r q = .ok m) : sumVals m = 0 := by
  obtain ⟨cpu, gpu, ctr1, ctr2, h1, h2, hm⟩ := reassign_ok_shape h
  obtain ⟨hs1, hp1, hn1⟩ := reassignPass_ok_facts h1
  obtain ⟨hs2, hp2, hn2⟩ := reassignPass_ok_facts h2
  have hdis : ∀ k ∈ gpu.map Prod.fst, k ∉ cpu.map Prod.fst := by
    intro k hk hk2
    obtain ⟨p, hp, he⟩ := List.mem_map.mp hk
    obtain ⟨p2, hp2m, he2⟩ := List.mem_map.mp hk2
    have hgp := hp2 p hp
    have hnm := hp1 p2 hp2m
    simp only [if_pos rfl] at hgp
    simp only [if_neg Bool.false_ne_true] at hnm
    rw [he] at hgp
    rw [he2] at hnm
    exact pref_clash k.2 hnm hgp
  have e1 : dictUpdate ([] : List (Band × Int)) cpu = cpu := by
    rw [dictUpdate_eq_append cpu [] hn1 (by intro k _ hk; simp at hk)]
    simp
  have e2 : dictUpdate cpu gpu = cpu ++ gpu := dictUpdate_eq_append gpu cpu hn2 hdis
  rw [hm, sumVals_perm (List.perm_insertionSort valLE _), e1, e2, sumVals_append,
    hs1, hs2]
  ring

/-- Witness for C1 at the concrete rebalance scenario S4. -/
theorem claimC1_witness :
    sumVals [(bandA, (-6 : Int)), (bandC, 3), (bandB, 3)] = 0 :=
  claimC1 stS4 r0 [(bandA, 9), (bandB, 0)] [(bandA, -6), (bandC, 3), (bandB, 3)] rfl

/-- Claim C9: the map returned by `reassign_subtasks` is ordered by
ascending delta (it is built by `dict(sorted(items, key=value))`), so the
bands that shed subtasks (negative deltas) come before the bands that
receive subtasks (positive deltas). -/
theorem claimC9 (st : AssignerState) (r : Nat → Nat) (q m : List (Band × Int))
    (h : reassignSubtasks st r q = .ok m) :
    m.Pairwise (fun a b => a.2 ≤ b.2) ∧ m.Pairwise (fun a b => b.2 < 0 → a.2 < 0) := by
  obtain ⟨cpu, gpu, ctr1, ctr2, h1, h2, hm⟩ := reassign_ok_shape h
  have hs : List.Sorted valLE
      (List.insertionSort valLE (dictUpdate (dictUpdate [] cpu) gpu)) :=
    @List.sorted_insertionSort _ valLE _ ⟨fun a b => le_total a.2 b.2⟩
      ⟨fun _ _ _ hab hbc => le_trans hab hbc⟩ _
  rw [hm]
  constructor
  · exact List.Pairwise.imp (fun hv => hv) hs
  · exact List.Pairwise.imp (fun hv hb => lt_of_le_of_lt hv hb) hs

/-- Witness for C9 at the concrete rebalance scenario S4. -/
theorem claimC9_witness :
    ([(bandA, (-6 : Int)), (bandC, 3), (bandB, 3)]).Pairwise
        (fun a b : Band × Int => a.2 ≤ b.2)
      ∧ ([(bandA, (-6 : Int)), (bandC, 3), (bandB, 3)]).Pairwise
        (fun a b : Band × Int => b.2 < 0 → a.2 < 0) :=
  claimC9 stS4 r0 [(bandA, 9), (bandB, 0)] [(bandA, -6), (bandC, 3), (bandB, 3)] rfl

theorem phase3_ok_forall₂ {st : AssignerState} {excl : List Band} {rwu : Bool}
    {r : Nat → Nat} {sel : List (String × List Band)} {em : String → ChunkMeta} :
    ∀ (subs : List Subtask) (ctr : Nat) (bs : List Band) (c : Nat),
      phase3 st excl rwu r sel em subs ctr = .ok (bs, c) →
      List.Forall₂ (fun s b =>
          (s.bandsSpecified = true → b ∈ s.expectBands) ∧ (rwu = false → b ∉ excl))
        subs bs := by
  intro subs
  induction subs with
  | nil =>
    intro ctr bs c h
    rw [phase3] at h
    simp at h
    obtain ⟨hb, _⟩ := h
    rw [hb]
    exact List.Forall₂.nil
  | cons s rest ih =>
    intro ctr bs c h
    rw [phase3] at h
    cases hc : chooseBandFor st excl rwu r sel em s ctr with
    | error e =>
      rw [hc] at h
      simp at h
    | ok p =>
      obtain ⟨band, ctr1⟩ := p
      rw [hc] at h
      simp only [] at h
      by_cases hg1 : rwu = false ∧ excl.contains band = true
      · rw [if_pos hg1] at h
        simp at h
      · rw [if_neg hg1] at h
        by_cases hg2 : s.bandsSpecified = true ∧ ¬ s.expectBands.contains band = true
        · rw [if_pos hg2] at h
          simp at h
        · rw [if_neg hg2] at h
          cases hrec : phase3 st excl rwu r sel em rest ctr1 with
          | error e =>
            rw [hrec] at h
            simp at h
          | ok p2 =>
            obtain ⟨bs2, ctr2⟩ := p2
            rw [hrec] at h
            simp at h
            obtain ⟨hb, _⟩ := h
            rw [← hb]
            refine List.Forall₂.cons ⟨?_, ?_⟩ (ih ctr1 bs2 ctr2 hrec)
            · intro hspec
              by_contra hmem
              exact hg2 ⟨hspec, by simpa using hmem⟩
            · intro hrwu hmem
              exact hg1 ⟨hrwu, by simpa using hmem⟩

/-- Claim C2 (amended): whenever `assign_subtasks` returns, every subtask
with `bands_specified` is assigned a band inside its `expect_bands`, and
whenever the band chosen by the assignment loop for a `bands_specified`
subtask is not in `expect_bands`, the loop raises `NoAvailableBand`
rather than silently relocating the subtask.  The case where no band of
`expect_bands` is ready and unexcluded does not always raise, however:
the random fallback can return an excluded band lying inside
`expect_bands`, and the call then succeeds on it (see the
counterexample). -/
theorem claimC2 :
    (∀ (st : AssignerState) (fresh : List Band) (subtasks : List Subtask)
        (excl : List Band) (rwu : Bool) (meta : String → ChunkMeta) (r : Nat → Nat)
        (assigns : List Band),
      assignSubtasks st fresh subtasks excl rwu meta r = .ok assigns →
      List.Forall₂ (fun s b => s.bandsSpecified = true → b ∈ s.expectBands)
        subtasks assigns)
    ∧ (∀ (st : AssignerState) (excl : List Band) (rwu : Bool) (r : Nat → Nat)
        (sel : List (String × List Band)) (em : String → ChunkMeta) (s : Subtask)
        (rest : List Subtask) (ctr : Nat) (band : Band) (ctr1 : Nat),
      chooseBandFor st excl rwu r sel em s ctr = .ok (band, ctr1) →
      s.bandsSpecified = true → band ∉ s.expectBands →
      phase3 st excl rwu r sel em (s :: rest) ctr = .error .noAvailableBand) := by
  constructor
  · intro st fresh subtasks excl rwu meta r assigns h
    rw [assignSubtasks] at h
    cases h1 : phase1 (if st.bands = [] then updateBands fresh else st) excl rwu r
        subtasks [] [] [] 0 with
    | error e =>
      rw [h1] at h
      simp at h
    | ok p1 =>
      rw [h1] at h
      simp only [] at h
      cases h2 : phase3 (if st.bands = [] then updateBands fresh else st) excl rwu r
          p1.selected (effMeta meta p1.bcastKeys) subtasks p1.ctr with
      | error e =>
        rw [h2] at h
        simp at h
      | ok p =>
        obtain ⟨bs, c⟩ := p
        rw [h2] at h
        simp at h
        rw [← h]
        exact List.Forall₂.imp (fun s b hsb => hsb.1)
          (phase3_ok_forall₂ subtasks p1.ctr bs c h2)
  · intro st excl rwu r sel em s rest ctr band ctr1 hc hspec hmem
    rw [phase3, hc]
    simp only []
    by_cases hg1 : rwu = false ∧ excl.contains band = true
    · rw [if_pos hg1]
    · rw [if_neg hg1, if_pos ⟨hspec, by simpa using hmem⟩]

/-- Counterexample to C2 as stated: with the single band `B1`, a subtask
with `expect_bands = [B1]`, `bands_specified`, and `B1` excluded, no band
of `expect_bands` is both in the band list and outside `exclude_bands` —
the claim's parenthetical raising case — yet the call raises nothing:
the random fallback (all candidates excluded, `random_when_unavailable =
true`) returns the excluded `B1`, which lies inside `expect_bands`, so
the final guard passes and the call succeeds on it. -/
theorem claimC2_cex :
    subSpec.bandsSpecified = true
      ∧ subSpec.expectBands.filter
          (fun b => stOneA.bands.contains b && !([bandA] : List Band).contains b) = []
      ∧ assignSubtasks stOneA [] [subSpec] [bandA] true metaOnA r0 = .ok [bandA] :=
  ⟨rfl, rfl, rfl⟩

/-- Witness for C2 (amended): a `bands_specified` subtask assigned onto
its expected band `B1`, and a loop run whose chosen band `B2` lies
outside `expect_bands = [B1]`, raising `NoAvailableBand`. -/
theorem claimC2_witness :
    List.Forall₂ (fun s b => s.bandsSpecified = true → b ∈ s.expectBands)
        [subSpec] [bandA]
      ∧ phase3 stS1 [] true r0 [("s3", [bandB])] metaOnA [subSpec] 0
          = .error .noAvailableBand := by
  constructor
  · exact claimC2.1 stS1 [] [subSpec] [] true metaOnA r0 [bandA] rfl
  · exact claimC2.2 stS1 [] true r0 [("s3", [bandB])] metaOnA subSpec [] 0 bandB 1
      rfl rfl (by decide)

theorem getDeviceBands_empty {st : AssignerState} {g : Bool}
    (hdev : lookupD st.deviceTypeToBands (if g then "gpu" else "numa") [] = []) :
    getDeviceBands st g = .error (.noMatchingSlots (if g then "gpu" else "cpu")) := by
  rw [getDeviceBands]
  simp [hdev]

theorem getRandomBand_dev_empty {st : AssignerState} {g : Bool} {excl : List Band}
    {rwu : Bool} {r : Nat → Nat} {ctr : Nat}
    (hdev : lookupD st.deviceTypeToBands (if g then "gpu" else "numa") [] = []) :
    getRandomBand st g excl rwu r ctr
      = .error (.noMatchingSlots (if g then "gpu" else "cpu")) := by
  rw [getRandomBand, getDeviceBands_empty hdev]

theorem scanIndep_dev_empty {st : AssignerState} {excl : List Band} {rwu : Bool}
    {r : Nat → Nat} {g : Bool} {e : AErr}
    (hrand : ∀ ctr, getRandomBand st g excl rwu r ctr = .error e) :
    ∀ (chunks : List Chunk) (ik bk : List String) (ctr : Nat),
      scanIndep st excl rwu r g chunks ik bk ctr = .error e
        ∨ ∃ ik' bk', scanIndep st excl rwu r g chunks ik bk ctr
            = .ok (ik', bk', none, ctr) := by
  intro chunks
  induction chunks with
  | nil =>
    intro ik bk ctr
    exact Or.inr ⟨ik, bk, rfl⟩
  | cons c rest ih =>
    intro ik bk ctr
    obtain ⟨ck, cbc, cg, ckind⟩ := c
    cases ckind with
    | fetch => exact ih (insertNew ik ck) (if cbc then insertNew bk ck else bk) ctr
    | fetchShuffle =>
      left
      show (match getRandomBand st g excl rwu r ctr with
        | .error e => .error e
        | .ok (b, ctr1) => .ok (ik, bk, some [b], ctr1)) = Except.error e
      rw [hrand ctr]
    | compute => exact ih ik bk ctr

theorem phase3_single_dev_empty {st : AssignerState} {excl : List Band} {rwu : Bool}
    {r : Nat → Nat} {s : Subtask}
    (hgd : getDeviceBands st (subtaskIsGpu s)
      = .error (.noMatchingSlots (if subtaskIsGpu s then "gpu" else "cpu"))) :
    ∀ (sel : List (String × List Band)) (em : String → ChunkMeta) (ctr : Nat),
      phase3 st excl rwu r sel em [s] ctr
        = .error (.noMatchingSlots (if subtaskIsGpu s then "gpu" else "cpu")) := by
  intro sel em ctr
  rw [phase3, chooseBandFor, hgd]

/-- When the device class of a subtask has no band in the device index,
`assign_subtasks` on that subtask raises
`NoMatchingSlots("gpu"|"cpu")` along every path. -/
theorem assign_noMatchingSlots (st : AssignerState) (fresh : List Band) (s : Subtask)
    (excl : List Band) (rwu : Bool) (meta : String → ChunkMeta) (r : Nat → Nat)
    (hb : ¬ st.bands = [])
    (hdev : lookupD st.deviceTypeToBands
      (if subtaskIsGpu s then "gpu" else "numa") [] = []) :
    assignSubtasks st fresh [s] excl rwu meta r
      = .error (.noMatchingSlots (if subtaskIsGpu s then "gpu" else "cpu")) := by
  have hgd := getDeviceBands_empty hdev
  have hgr : ∀ ctr, getRandomBand st (subtaskIsGpu s) excl rwu r ctr
      = .error (.noMatchingSlots (if subtaskIsGpu s then "gpu" else "cpu")) :=
    fun _ => getRandomBand_dev_empty hdev
  rw [assignSubtasks, if_neg hb]
  by_cases hexp : s.expectBands ≠ []
  · simp only [phase1, if_pos hexp]
    by_cases heab : s.expectBands.filter
        (fun b => st.bands.contains b && !excl.contains b) = []
    · rw [if_pos heab, hgr 0]
    · rw [if_neg heab]
      simp only []
      rw [phase3_single_dev_empty hgd]
  · simp only [phase1, if_neg hexp]
    rcases scanIndep_dev_empty hgr s.graph.indep [] [] 0 with hsc | ⟨ik', bk', hsc⟩
    · rw [hsc]
    · rw [hsc]
      simp only []
      rw [phase3_single_dev_empty hgd]

theorem forall₂_mem_right {α β : Type} {P : β → Prop} :
    ∀ {l1 : List α} {l2 : List β}, List.Forall₂ (fun _ b => P b) l1 l2 →
      ∀ b ∈ l2, P b := by
  intro l1 l2 h
  induction h with
  | nil =>
    intro b hb
    simp at hb
  | cons hab _ ih =>
    intro b hb
    rcases List.mem_cons.mp hb with h | h
    · rw [h]
      exact hab
    · exact ih b h

/-- Claim C6 (amended): the code raises `NoMatchingSlots` when the device
class of a subtask has no band at all in the device index (not when the
class merely has all its bands excluded), and no excluded band is ever
returned when `random_when_unavailable` is false.  With
`random_when_unavailable = true` an excluded band can be returned
(see the counterexample). -/
theorem claimC6 :
    (∀ (st : AssignerState) (fresh : List Band) (s : Subtask) (excl : List Band)
        (rwu : Bool) (meta : String → ChunkMeta) (r : Nat → Nat),
      ¬ st.bands = [] →
      lookupD st.deviceTypeToBands (if subtaskIsGpu s then "gpu" else "numa") [] = [] →
      assignSubtasks st fresh [s] excl rwu meta r
        = .error (.noMatchingSlots (if subtaskIsGpu s then "gpu" else "cpu")))
    ∧ (∀ (st : AssignerState) (fresh : List Band) (subtasks : List Subtask)
        (excl : List Band) (meta : String → ChunkMeta) (r : Nat → Nat)
        (assigns : List Band),
      assignSubtasks st fresh subtasks excl false meta r = .ok assigns →
      ∀ b ∈ assigns, b ∉ excl) := by
  constructor
  · intro st fresh s excl rwu meta r hb hdev
    exact assign_noMatchingSlots st fresh s excl rwu meta r hb hdev
  · intro st fresh subtasks excl meta r assigns h
    rw [assignSubtasks] at h
    cases h1 : phase1 (if st.bands = [] then updateBands fresh else st) excl false r
        subtasks [] [] [] 0 with
    | error e =>
      rw [h1] at h
      simp at h
    | ok p1 =>
      rw [h1] at h
      simp only [] at h
      cases h2 : phase3 (if st.bands = [] then updateBands fresh else st) excl false r
          p1.selected (effMeta meta p1.bcastKeys) subtasks p1.ctr with
      | error e =>
        rw [h2] at h
        simp at h
      | ok p =>
        obtain ⟨bs, c⟩ := p
        rw [h2] at h
        simp at h
        rw [← h]
        exact forall₂_mem_right
          (List.Forall₂.imp (fun s b hsb => hsb.2 rfl)
            (phase3_ok_forall₂ subtasks p1.ctr bs c h2))

/-- Counterexample to C6 as stated: band `B1` is the only CPU band and is
excluded, so the candidate set (device-class bands minus `exclude_bands`)
is empty; yet with `random_when_unavailable = true` the call neither
raises `NoMatchingSlots` nor avoids the excluded band — it returns the
excluded band `B1`. -/
theorem claimC6_cex :
    ((lookupD stOneA.deviceTypeToBands "numa" []).filter
        (fun b => !([bandA].contains b)) = [])
      ∧ assignSubtasks stOneA [] [subFetch1] [bandA] true metaOnA r0 = .ok [bandA] :=
  ⟨rfl, rfl⟩

/-- Witness for C6 (amended): a CPU subtask on a GPU-only cluster raises
`NoMatchingSlots("cpu")`, and a run with `random_when_unavailable = false`
assigns a band outside the excluded set. -/
theorem claimC6_witness :
    assignSubtasks stGpuOnly [] [subFetch1] [] true metaOnA r0
        = .error (.noMatchingSlots "cpu")
      ∧ ∀ b ∈ ([bandB] : List Band), b ∉ ([bandA] : List Band) := by
  constructor
  · exact claimC6.1 stGpuOnly [] subFetch1 [] true metaOnA r0 (by decide) rfl
  · exact claimC6.2 stS1 [] [subFetch1] [bandA] metaOnA r0 [bandB] rfl

theorem lookupOpt_dictSet_nil {κ α : Type} [DecidableEq κ] (k : κ) (v : α) :
    lookupOpt (dictSet [] k v) k = some v := by
  simp [dictSet, lookupOpt]

theorem getRandomBand_ok_mem {st : AssignerState} {g : Bool} {excl : List Band}
    {rwu : Bool} {r : Nat → Nat} {ctrm : Nat} {b : Band} {c : Nat}
    (hok : getRandomBand st g excl rwu r ctrm = .ok (b, c))
    (hcand : (lookupD st.deviceTypeToBands (if g then "gpu" else "numa") []).filter
        (fun x => !excl.contains x) ≠ []) :
    b ∈ (lookupD st.deviceTypeToBands (if g then "gpu" else "numa") []).filter
        (fun x => !excl.contains x) := by
  rw [getRandomBand, getDeviceBands] at hok
  by_cases hL : lookupD st.deviceTypeToBands (if g then "gpu" else "numa") [] = []
  · rw [if_pos hL] at hok
    simp at hok
  · rw [if_neg hL] at hok
    simp only [] at hok
    by_cases hE : excl ≠ []
    · rw [if_pos hE] at hok
      by_cases hA : (lookupD st.deviceTypeToBands (if g then "gpu" else "numa") []).filter
          (fun x => !excl.contains x) ≠ []
      · rw [if_pos hA] at hok
        exact pick_mem hok
      · exact absurd hcand hA
    · rw [if_neg hE] at hok
      push_neg at hE
      have hfil : (lookupD st.deviceTypeToBands (if g then "gpu" else "numa") []).filter
          (fun x => !excl.contains x)
          = lookupD st.deviceTypeToBands (if g then "gpu" else "numa") [] := by
        rw [hE]
        simp
      rw [hfil]
      exact pick_mem hok

theorem scanIndep_shuffle {st : AssignerState} {excl : List Band} {rwu : Bool}
    {r : Nat → Nat} {g : Bool} :
    ∀ (chunks : List Chunk), (∃ c ∈ chunks, c.kind = OpKind.fetchShuffle) →
      ∀ (ik bk : List String) (ctr : Nat),
        (∃ e, scanIndep st excl rwu r g chunks ik bk ctr = .error e)
        ∨ ∃ ik' bk' b ctrm ctr',
            scanIndep st excl rwu r g chunks ik bk ctr = .ok (ik', bk', some [b], ctr')
            ∧ getRandomBand st g excl rwu r ctrm = .ok (b, ctr') := by
  intro chunks
  induction chunks with
  | nil =>
    intro h
    obtain ⟨c, hc, _⟩ := h
    simp at hc
  | cons c rest ih =>
    intro h ik bk ctr
    obtain ⟨ck, cbc, cg, ckind⟩ := c
    cases ckind with
    | fetch =>
      have h' : ∃ c ∈ rest, c.kind = OpKind.fetchShuffle := by
        obtain ⟨c2, hc2, hk2⟩ := h
        rcases List.mem_cons.mp hc2 with he | he
        · rw [he] at hk2
          simp at hk2
        · exact ⟨c2, he, hk2⟩
      exact ih h' (insertNew ik ck) (if cbc then insertNew bk ck else bk) ctr
    | fetchShuffle =>
      cases hg : getRandomBand st g excl rwu r ctr with
      | error e =>
        left
        refine ⟨e, ?_⟩
        show (match getRandomBand st g excl rwu r ctr with
          | .error e => .error e
          | .ok (b, ctr1) => .ok (ik, bk, some [b], ctr1)) = Except.error e
        rw [hg]
      | ok p =>
        obtain ⟨b, c1⟩ := p
        right
        refine ⟨ik, bk, b, ctr, c1, ?_, hg⟩
        show (match getRandomBand st g excl rwu r ctr with
          | .error e => .error e
          | .ok (b, ctr1) => .ok (ik, bk, some [b], ctr1))
          = Except.ok (ik, bk, some [b], c1)
        rw [hg]
    | compute =>
      have h' : ∃ c ∈ rest, c.kind = OpKind.fetchShuffle := by
        obtain ⟨c2, hc2, hk2⟩ := h
        rcases List.mem_cons.mp hc2 with he | he
        · rw [he] at hk2
          simp at hk2
        · exact ⟨c2, he, hk2⟩
      exact ih h' ik bk ctr

theorem phase1_single_shuffle {st : AssignerState} {excl : List Band} {rwu : Bool}
    {r : Nat → Nat} {s : Subtask} (hexp : s.expectBands = [])
    (hshuf : ∃ c ∈ s.graph.indep, c.kind = OpKind.fetchShuffle) :
    (∃ e, phase1 st excl rwu r [s] [] [] [] 0 = .error e)
      ∨ ∃ ik bk b ctrm ctr',
          phase1 st excl rwu r [s] [] [] [] 0
            = .ok ⟨ik, bk, dictSet [] s.subtaskId [b], ctr'⟩
          ∧ getRandomBand st (subtaskIsGpu s) excl rwu r ctrm = .ok (b, ctr') := by
  have hne : ¬ s.expectBands ≠ [] := fun h => h hexp
  rcases scanIndep_shuffle s.graph.indep hshuf [] [] 0 with ⟨e, hsc⟩ |
    ⟨ik, bk, b, ctrm, ctr', hsc, hgr⟩
  · left
    refine ⟨e, ?_⟩
    simp only [phase1, if_neg hne]
    rw [hsc]
  · right
    refine ⟨ik, bk, b, ctrm, ctr', ?_, hgr⟩
    simp only [phase1, if_neg hne]
    rw [hsc]

theorem phase3_single_sel_em {st : AssignerState} {excl : List Band} {rwu : Bool}
    {r : Nat → Nat} {sel : List (String × List Band)} {s : Subtask} {bs0 : List Band}
    (hsel : lookupOpt sel s.subtaskId = some bs0) (em em' : String → ChunkMeta)
    (ctr : Nat) :
    phase3 st excl rwu r sel em [s] ctr = phase3 st excl rwu r sel em' [s] ctr := by
  simp only [phase3, chooseBandFor, hsel]

/-- Claim C7 (amended): a subtask without `expect_bands` whose chunk graph
has a `FetchShuffle` source is assigned at random, ignoring input
locality (the result does not depend on the chunk metadata at all), and
whenever the candidate set — device-class bands not in `exclude_bands` —
is non-empty, the returned band belongs to it.  When the candidate set is
empty and `random_when_unavailable = true` the code still returns an
(excluded) band, see the counterexample. -/
theorem claimC7 :
    (∀ (st : AssignerState) (fresh : List Band) (s : Subtask) (excl : List Band)
        (rwu : Bool) (meta : String → ChunkMeta) (r : Nat → Nat) (bs : List Band),
      ¬ st.bands = [] → s.expectBands = [] →
      (∃ c ∈ s.graph.indep, c.kind = OpKind.fetchShuffle) →
      assignSubtasks st fresh [s] excl rwu meta r = .ok bs →
      (lookupD st.deviceTypeToBands (if subtaskIsGpu s then "gpu" else "numa") []).filter
          (fun x => !excl.contains x) ≠ [] →
      ∀ b ∈ bs, b ∈ (lookupD st.deviceTypeToBands
          (if subtaskIsGpu s then "gpu" else "numa") []).filter
        (fun x => !excl.contains x))
    ∧ (∀ (st : AssignerState) (fresh : List Band) (s : Subtask) (excl : List Band)
        (rwu : Bool) (meta meta' : String → ChunkMeta) (r : Nat → Nat),
      ¬ st.bands = [] → s.expectBands = [] →
      (∃ c ∈ s.graph.indep, c.kind = OpKind.fetchShuffle) →
      assignSubtasks st fresh [s] excl rwu meta r
        = assignSubtasks st fresh [s] excl rwu meta' r) := by
  constructor
  · intro st fresh s excl rwu meta r bs hb hexp hshuf hok hcand b hbbs
    rw [assignSubtasks, if_neg hb] at hok
    rcases @phase1_single_shuffle st excl rwu r s hexp hshuf with ⟨e, herr⟩ |
      ⟨ik, bk, b0, ctrm, ctr', hp1, hgr⟩
    · rw [herr] at hok
      simp at hok
    · rw [hp1] at hok
      simp only [] at hok
      simp only [phase3, chooseBandFor, lookupOpt_dictSet_nil] at hok
      cases hgd : getDeviceBands st (subtaskIsGpu s) with
      | error e =>
        rw [hgd] at hok
        simp at hok
      | ok filtered =>
        rw [hgd] at hok
        simp only [] at hok
        rw [pick_singleton] at hok
        simp only [] at hok
        by_cases hg1 : rwu = false ∧ excl.contains b0 = true
        · rw [if_pos hg1] at hok
          simp at hok
        · rw [if_neg hg1] at hok
          by_cases hg2 : s.bandsSpecified = true ∧ ¬ s.expectBands.contains b0 = true
          · rw [if_pos hg2] at hok
            simp at hok
          · rw [if_neg hg2] at hok
            simp at hok
            have hb0 : b = b0 := by
              rw [← hok] at hbbs
              simpa using hbbs
            rw [hb0]
            exact getRandomBand_ok_mem hgr hcand
  · intro st fresh s excl rwu meta meta' r hb hexp hshuf
    simp only [assignSubtasks]
    rw [if_neg hb]
    rcases @phase1_single_shuffle st excl rwu r s hexp hshuf with ⟨e, herr⟩ |
      ⟨ik, bk, b0, ctrm, ctr', hp1, hgr⟩
    · rw [herr]
    · rw [hp1]
      simp only []
      rw [phase3_single_sel_em (lookupOpt_dictSet_nil s.subtaskId [b0])
        (effMeta meta bk) (effMeta meta' bk) ctr']

/-- Counterexample to C7 as stated: the only CPU band `B1` is excluded, so
the candidate set is empty, yet the shuffle subtask is assigned `B1`,
which is not a member of the candidate set. -/
theorem claimC7_cex :
    ((lookupD stOneA.deviceTypeToBands "numa" []).filter
        (fun b => !([bandA].contains b)) = [])
      ∧ assignSubtasks stOneA [] [subShuffle] [bandA] true metaOnA r0 = .ok [bandA] :=
  ⟨rfl, rfl⟩

/-- Witness for C7 (amended): with bands `B1, B2` and `B1` excluded, the
shuffle subtask lands on `B2`, a member of the candidate set, and the
result is independent of the metadata. -/
theorem claimC7_witness :
    (∀ b ∈ ([bandB] : List Band),
      b ∈ (lookupD stS1.deviceTypeToBands "numa" []).filter
        (fun x => !([bandA] : List Band).contains x))
    ∧ assignSubtasks stS1 [] [subShuffle] [bandA] true metaOnA r0
        = assignSubtasks stS1 [] [subShuffle] [bandA] true metaS1 r0 := by
  constructor
  · exact claimC7.1 stS1 [] subShuffle [bandA] true metaOnA r0 [bandB] (by decide) rfl
      ⟨chunkShuffle, by decide, rfl⟩ rfl (by decide)
  · exact claimC7.2 stS1 [] subShuffle [bandA] true metaOnA metaS1 r0 (by decide) rfl
      ⟨chunkShuffle, by decide, rfl⟩

theorem finalMax_ge : ∀ (l : List (Band × Int)) (m : Int),
    m ≤ finalMax l m ∧ ∀ p ∈ l, p.2 ≤ finalMax l m := by
  intro l
  induction l with
  | nil =>
    intro m
    refine ⟨le_refl m, ?_⟩
    intro p hp
    simp at hp
  | cons q t ih =>
    intro m
    constructor
    · exact le_trans (le_max_left m q.2) (ih (max m q.2)).1
    · intro p hp
      rcases List.mem_cons.mp hp with h | h
      · rw [h]
        exact le_trans (le_max_right m q.2) (ih (max m q.2)).1
      · exact (ih (max m q.2)).2 p h

theorem argmax_mem_spec : ∀ (l : List (Band × Int)) (acc : List Band) (m : Int),
    ∀ b ∈ argmaxLoop l acc m,
      (b ∈ acc ∧ finalMax l m = m) ∨ ∃ v, (b, v) ∈ l ∧ v = finalMax l m := by
  intro l
  induction l with
  | nil =>
    intro acc m b hb
    exact Or.inl ⟨hb, rfl⟩
  | cons q t ih =>
    intro acc m b hb
    obtain ⟨qb, qs⟩ := q
    by_cases h1 : qs > m
    · rw [argmaxLoop, if_pos h1] at hb
      have hmx : max m qs = qs := max_eq_right (le_of_lt h1)
      have hc : finalMax ((qb, qs) :: t) m = finalMax t qs := by
        show finalMax t (max m qs) = finalMax t qs
        rw [hmx]
      rcases ih [qb] qs b hb with ⟨hmem, hfm⟩ | ⟨v, hv, hfm⟩
      · right
        simp at hmem
        refine ⟨qs, ?_, ?_⟩
        · rw [hmem]
          exact List.mem_cons_self _ _
        · rw [hc]
          exact hfm.symm
      · right
        refine ⟨v, List.mem_cons_of_mem _ hv, ?_⟩
        rw [hc]
        exact hfm
    · by_cases h2 : qs = m
      · rw [argmaxLoop, if_neg h1, if_pos h2] at hb
        have hc : finalMax ((qb, qs) :: t) m = finalMax t m := by
          show finalMax t (max m qs) = finalMax t m
          rw [h2, max_self]
        rcases ih (acc ++ [qb]) m b hb with ⟨hmem, hfm⟩ | ⟨v, hv, hfm⟩
        · rcases List.mem_append.mp hmem with ha | ha
          · left
            refine ⟨ha, ?_⟩
            rw [hc]
            exact hfm
          · right
            simp at ha
            refine ⟨qs, ?_, ?_⟩
            · rw [ha]
              exact List.mem_cons_self _ _
            · rw [hc, hfm, h2]
        · right
          refine ⟨v, List.mem_cons_of_mem _ hv, ?_⟩
          rw [hc]
          exact hfm
      · rw [argmaxLoop, if_neg h1, if_neg h2] at hb
        have hmx : max m qs = m := max_eq_left (le_of_not_lt h1)
        have hc : finalMax ((qb, qs) :: t) m = finalMax t m := by
          show finalMax t (max m qs) = finalMax t m
          rw [hmx]
        rcases ih acc m b hb with ⟨hmem, hfm⟩ | ⟨v, hv, hfm⟩
        · left
          refine ⟨hmem, ?_⟩
          rw [hc]
          exact hfm
        · right
          refine ⟨v, List.mem_cons_of_mem _ hv, ?_⟩
          rw [hc]
          exact hfm

theorem scanIndep_no_shuffle {st : AssignerState} {excl : List Band} {rwu : Bool}
    {r : Nat → Nat} {g : Bool} :
    ∀ (chunks : List Chunk), (∀ c ∈ chunks, c.kind ≠ OpKind.fetchShuffle) →
      ∀ (ik bk : List String) (ctr : Nat),
        ∃ ik' bk', scanIndep st excl rwu r g chunks ik bk ctr
          = .ok (ik', bk', none, ctr) := by
  intro chunks
  induction chunks with
  | nil =>
    intro _ ik bk ctr
    exact ⟨ik, bk, rfl⟩
  | cons c rest ih =>
    intro h ik bk ctr
    obtain ⟨ck, cbc, cg, ckind⟩ := c
    cases ckind with
    | fetch =>
      exact ih (fun c2 hc2 => h c2 (List.mem_cons_of_mem _ hc2))
        (insertNew ik ck) (if cbc then insertNew bk ck else bk) ctr
    | fetchShuffle =>
      exact absurd rfl (h ⟨ck, cbc, cg, OpKind.fetchShuffle⟩ (List.mem_cons_self _ _))
    | compute =>
      exact ih (fun c2 hc2 => h c2 (List.mem_cons_of_mem _ hc2)) ik bk ctr

theorem phase1_single_no_shuffle {st : AssignerState} {excl : List Band} {rwu : Bool}
    {r : Nat → Nat} {s : Subtask} (hexp : s.expectBands = [])
    (hnos : ∀ c ∈ s.graph.indep, c.kind ≠ OpKind.fetchShuffle) :
    ∃ ik bk, phase1 st excl rwu r [s] [] [] [] 0 = .ok ⟨ik, bk, [], 0⟩ := by
  have hne : ¬ s.expectBands ≠ [] := fun h => h hexp
  obtain ⟨ik', bk', hsc⟩ := scanIndep_no_shuffle s.graph.indep hnos [] [] 0
  refine ⟨ik', bk', ?_⟩
  simp only [phase1, if_neg hne]
  rw [hsc]

theorem getDeviceBands_ok {st : AssignerState} {g : Bool} {bands : List Band}
    (h : getDeviceBands st g = .ok bands) :
    bands = lookupD st.deviceTypeToBands (if g then "gpu" else "numa") [] := by
  rw [getDeviceBands] at h
  by_cases hL : lookupD st.deviceTypeToBands (if g then "gpu" else "numa") [] = []
  · rw [if_pos hL] at h
    simp at h
  · rw [if_neg hL] at h
    simp at h
    exact h.symm

/-- Claim C3: a subtask assigned by input locality (no `expect_bands`, no
`FetchShuffle` source) gets exactly one band, drawn among the bands of
maximal accumulated store size (the `band_sizes` accumulation over its
`Fetch` inputs); in particular, scenario S1 — chunk of size 100 on `B1`,
chunk of size 10 on `B2` — is assigned `[B1]` for every random stream. -/
theorem claimC3 :
    (∀ r : Nat → Nat, assignSubtasks stS1 [] [subLoc] [] true metaS1 r = .ok [bandA])
    ∧ (∀ (st : AssignerState) (fresh : List Band) (s : Subtask) (excl : List Band)
        (rwu : Bool) (meta : String → ChunkMeta) (r : Nat → Nat) (bs : List Band),
      ¬ st.bands = [] → s.expectBands = [] →
      (∀ c ∈ s.graph.indep, c.kind ≠ OpKind.fetchShuffle) →
      assignSubtasks st fresh [s] excl rwu meta r = .ok bs →
      ∃ b ik bk sizes ctr1 v, bs = [b]
        ∧ phase1 st excl rwu r [s] [] [] [] 0 = .ok ⟨ik, bk, [], 0⟩
        ∧ accumSizes st excl rwu r (subtaskIsGpu s)
            (if subtaskIsGpu s then "gpu" else "numa")
            (lookupD st.deviceTypeToBands (if subtaskIsGpu s then "gpu" else "numa") [])
            (effMeta meta bk) s.graph.indep [] 0 = .ok (sizes, ctr1)
        ∧ (b, v) ∈ sizes ∧ ∀ p ∈ sizes, p.2 ≤ v) := by
  constructor
  · intro r
    have he : ([bandA] : List Band).get
        ⟨r 0 % 1, Nat.mod_lt _ (Nat.succ_pos _)⟩ = bandA :=
      List.mem_singleton.mp (List.get_mem _ _ _)
    have base : assignSubtasks stS1 [] [subLoc] [] true metaS1 r
        = .ok [([bandA] : List Band).get
          ⟨r 0 % 1, Nat.mod_lt _ (Nat.succ_pos _)⟩] := rfl
    rw [he] at base
    exact base
  · intro st fresh s excl rwu meta r bs hb hexp hnos hok
    rw [assignSubtasks, if_neg hb] at hok
    obtain ⟨ik, bk, hp1⟩ := @phase1_single_no_shuffle st excl rwu r s hexp hnos
    rw [hp1] at hok
    simp only [] at hok
    simp only [phase3, chooseBandFor, lookupOpt] at hok
    cases hgd : getDeviceBands st (subtaskIsGpu s) with
    | error e =>
      rw [hgd] at hok
      simp at hok
    | ok filtered =>
      have hfl := getDeviceBands_ok hgd
      rw [hgd] at hok
      simp only [] at hok
      cases hac : accumSizes st excl rwu r (subtaskIsGpu s)
          (if subtaskIsGpu s then "gpu" else "numa") filtered
          (effMeta meta bk) s.graph.indep [] 0 with
      | error e =>
        rw [hac] at hok
        simp at hok
      | ok pac =>
        obtain ⟨sizes, ctr1⟩ := pac
        rw [hac] at hok
        simp only [] at hok
        cases hpk : pick r ctr1 (argmaxLoop sizes [] (-1)) with
        | error e =>
          rw [hpk] at hok
          simp at hok
        | ok pb =>
          obtain ⟨band, ctr2⟩ := pb
          rw [hpk] at hok
          simp only [] at hok
          by_cases hg1 : rwu = false ∧ excl.contains band = true
          · rw [if_pos hg1] at hok
            simp at hok
          · rw [if_neg hg1] at hok
            by_cases hg2 : s.bandsSpecified = true ∧ ¬ s.expectBands.contains band = true
            · rw [if_pos hg2] at hok
              simp at hok
            · rw [if_neg hg2] at hok
              simp only [phase3] at hok
              simp at hok
              have hmem := pick_mem hpk
              rcases argmax_mem_spec sizes [] (-1) band hmem with ⟨hin, _⟩ | ⟨v, hv, hfm⟩
              · simp at hin
              · refine ⟨band, ik, bk, sizes, ctr1, v, ?_, hp1, ?_, hv, ?_⟩
                · rw [← hok]
                · rw [← hfl]
                  exact hac
                · intro p hp
                  rw [hfm]
                  exact (finalMax_ge sizes (-1)).2 p hp

/-- Witness for C3: the general locality statement instantiated at
scenario S1. -/
theorem claimC3_witness :
    ∃ b ik bk sizes ctr1 v, ([bandA] : List Band) = [b]
      ∧ phase1 stS1 [] true r0 [subLoc] [] [] [] 0
          = .ok ⟨ik, bk, [], 0⟩
      ∧ accumSizes stS1 [] true r0 (subtaskIsGpu subLoc)
          (if subtaskIsGpu subLoc then "gpu" else "numa")
          (lookupD stS1.deviceTypeToBands
            (if subtaskIsGpu subLoc then "gpu" else "numa") [])
          (effMeta metaS1 bk) subLoc.graph.indep [] 0 = .ok (sizes, ctr1)
      ∧ (b, v) ∈ sizes ∧ ∀ p ∈ sizes, p.2 ≤ v :=
  claimC3.2 stS1 [] subLoc [] true metaS1 r0 [bandA] (by decide) rfl (by decide) rfl

/-- Claim C5: a `Fetch` chunk flagged `is_broadcaster` contributes zero to
the per-band size accumulation — formally, the whole result of
`assign_subtasks` is unchanged under any modification of the store sizes
of the collected broadcaster keys (their metas are overwritten with size
0 before sizing); in particular scenario S2 — broadcaster chunk of size
1000 on `B1`, chunk of size 5 on `B2` — is assigned `[B2]` for every
random stream. -/
theorem claimC5 :
    (∀ r : Nat → Nat, assignSubtasks stS1 [] [subBc] [] true metaS2 r = .ok [bandB])
    ∧ (∀ (st : AssignerState) (fresh : List Band) (subs : List Subtask)
        (excl : List Band) (rwu : Bool) (meta meta' : String → ChunkMeta)
        (r : Nat → Nat) (p1 : Phase1Out),
      ¬ st.bands = [] →
      phase1 st excl rwu r subs [] [] [] 0 = .ok p1 →
      (∀ k, (meta' k).bands = (meta k).bands) →
      (∀ k, p1.bcastKeys.contains k = false → meta' k = meta k) →
      assignSubtasks st fresh subs excl rwu meta r
        = assignSubtasks st fresh subs excl rwu meta' r) := by
  constructor
  · intro r
    have he : ([bandB] : List Band).get
        ⟨r 0 % 1, Nat.mod_lt _ (Nat.succ_pos _)⟩ = bandB :=
      List.mem_singleton.mp (List.get_mem _ _ _)
    have base : assignSubtasks stS1 [] [subBc] [] true metaS2 r
        = .ok [([bandB] : List Band).get
          ⟨r 0 % 1, Nat.mod_lt _ (Nat.succ_pos _)⟩] := rfl
    rw [he] at base
    exact base
  · intro st fresh subs excl rwu meta meta' r p1 hb hp1 hbands hsame
    have hem : effMeta meta p1.bcastKeys = effMeta meta' p1.bcastKeys := by
      funext k
      simp only [effMeta]
      by_cases hk : p1.bcastKeys.contains k = true
      · rw [if_pos hk, if_pos hk, hbands k]
      · have hkf : p1.bcastKeys.contains k = false := by
          revert hk
          cases p1.bcastKeys.contains k <;> simp
        rw [if_neg hk, if_neg hk]
        exact (hsame k hkf).symm
    simp only [assignSubtasks]
    rw [if_neg hb, hp1]
    simp only []
    rw [hem]

/-- Witness for C5: changing the broadcaster chunk's size from 1000 to 77
leaves the S2 assignment unchanged. -/
theorem claimC5_witness :
    assignSubtasks stS1 [] [subBc] [] true metaS2 r0
      = assignSubtasks stS1 [] [subBc] [] true metaS2b r0 := by
  have hbands : ∀ k, (metaS2b k).bands = (metaS2 k).bands := by
    intro k
    by_cases h1 : k = "c1"
    · simp [metaS2, metaS2b, h1]
    · by_cases h2 : k = "c2" <;> simp [metaS2, metaS2b, h1, h2]
  have hsame : ∀ k, (["c1"] : List String).contains k = false → metaS2b k = metaS2 k := by
    intro k hk
    have h1 : ¬ k = "c1" := by
      intro he
      rw [he] at hk
      exact absurd hk (by decide)
    by_cases h2 : k = "c2" <;> simp [metaS2, metaS2b, h1, h2]
  exact claimC5.2 stS1 [] [subBc] [] true metaS2 metaS2b r0
    ⟨["c1", "c2"], ["c1"], [], 0⟩ (by decide) rfl hbands hsame

theorem mainPass_formula {st : AssignerState} {r : Nat → Nat} {ctr : Nat}
    {fb : List Band} {fq l : List (Band × Int)} {c : Nat}
    (h : mainPass st r ctr fb fq = .ok (l, c)) :
    ∃ cb, ∀ b ∈ fb, lookupD l b 0
      = deltaFor fb (workingQ fb fq) (meanOf fb fq) b
        + (if b = cb then -(sumVals (bandMoveNums fb fq)) else 0) := by
  rw [mainPass] at h
  by_cases ht : sumVals (bandMoveNums fb fq) > 0
  · rw [if_pos ht] at h
    simp at h
  · rw [if_neg ht] at h
    by_cases hz : sumVals (bandMoveNums fb fq) ≠ 0
    · rw [if_pos hz] at h
      cases hg : getRandomBand st false [] true r ctr with
      | error e =>
        rw [hg] at h
        simp at h
      | ok p =>
        obtain ⟨cb, ctr1⟩ := p
        rw [hg] at h
        simp only [] at h
        by_cases hcb : ((bandMoveNums fb fq).map Prod.fst).contains cb = true
        · rw [if_pos hcb] at h
          simp at h
          obtain ⟨hl, _⟩ := h
          refine ⟨cb, ?_⟩
          intro b hbfb
          have hmem : b ∈ (fb ++ (workingQ fb fq).map Prod.fst).dedup := by
            rw [List.mem_dedup]
            exact List.mem_append_left _ hbfb
          rw [← hl, bandMoveNums, adjust_comp]
          rw [lookupD_map_self _ _ _ _ hmem]
          by_cases hbc : b = cb
          · rw [if_pos hbc, if_pos hbc]
            ring
          · rw [if_neg hbc, if_neg hbc]
            ring
        · rw [if_neg hcb] at h
          simp at h
    · rw [if_neg hz] at h
      simp at h
      obtain ⟨hl, _⟩ := h
      push_neg at hz
      refine ⟨bandA, ?_⟩
      intro b hbfb
      have hmem : b ∈ (fb ++ (workingQ fb fq).map Prod.fst).dedup := by
        rw [List.mem_dedup]
        exact List.mem_append_left _ hbfb
      rw [hz, ← hl, bandMoveNums, lookupD_map_self _ _ _ _ hmem]
      by_cases hbc : b = bandA
      · rw [if_pos hbc]
        ring
      · rw [if_neg hbc]
        ring

/-- Claim C4 (amended): scenario S4 — ready bands `B1, B2, B3`, input
`{B1: 9, B2: 0}` — yields `mean = floor(9/3) = 3` and the deltas
`{B1: -6, B2: +3, B3: +3}`; in general each ready band's delta in a pass
is `mean - count` over the working map, except that one CPU band may
additionally absorb the negative residual `-total` left by the floored
mean (in S4 the residual is zero). -/
theorem claimC4 :
    (meanOf [bandA, bandB, bandC] [(bandA, 9), (bandB, 0)] = 3
      ∧ ∀ r : Nat → Nat, ∃ m, reassignSubtasks stS4 r [(bandA, 9), (bandB, 0)] = .ok m
          ∧ lookupD m bandA 0 = -6 ∧ lookupD m bandB 0 = 3 ∧ lookupD m bandC 0 = 3
          ∧ m.length = 3 ∧ sumVals m = 0)
    ∧ (∀ (st : AssignerState) (r : Nat → Nat) (ctr : Nat) (fb : List Band)
        (fq l : List (Band × Int)) (c : Nat),
      mainPass st r ctr fb fq = .ok (l, c) →
      ∃ cb, ∀ b ∈ fb, lookupD l b 0
        = meanOf fb fq - lookupD (workingQ fb fq) b 0
          + (if b = cb then -(sumVals (bandMoveNums fb fq)) else 0)) := by
  constructor
  · refine ⟨rfl, ?_⟩
    intro r
    have hm : reassignSubtasks stS4 r [(bandA, 9), (bandB, 0)]
        = .ok [(bandA, -6), (bandC, 3), (bandB, 3)] := by rfl
    exact ⟨[(bandA, -6), (bandC, 3), (bandB, 3)], hm, rfl, rfl, rfl, rfl, rfl⟩
  · intro st r ctr fb fq l c h
    obtain ⟨cb, hcb⟩ := mainPass_formula h
    refine ⟨cb, ?_⟩
    intro b hb
    have hcont : fb.contains b = true := by simpa using hb
    rw [hcb b hb, deltaFor, if_pos hcont]

/-- Counterexample to C4's general sentence: with ready bands `B1, B2`
and input `{B1: 3}` the mean is `floor(3/2) = 1` and the residual `-1` is
credited to `B1`, so the returned delta of the ready band `B1` is `-1`,
not `mean - count = -2`. -/
theorem claimC4_cex :
    reassignSubtasks stS1 r0 [(bandA, 3)] = .ok [(bandA, -1), (bandB, 1)]
      ∧ meanOf [bandA, bandB] [(bandA, 3)] = 1
      ∧ lookupD [(bandA, (-1 : Int)), (bandB, 1)] bandA 0
          ≠ meanOf [bandA, bandB] [(bandA, 3)] - 3 :=
  ⟨rfl, rfl, by decide⟩

/-- Witness for C4 (amended): the per-band formula instantiated on the
pass with ready bands `B1, B2` and input `{B1: 3}`. -/
theorem claimC4_witness :
    ∃ cb, ∀ b ∈ [bandA, bandB],
      lookupD [(bandB, (1 : Int)), (bandA, -1)] b 0
        = meanOf [bandA, bandB] [(bandA, 3)]
            - lookupD (workingQ [bandA, bandB] [(bandA, 3)]) b 0
          + (if b = cb then -(sumVals (bandMoveNums [bandA, bandB] [(bandA, 3)])) else 0) :=
  claimC4.2 stS1 r0 0 [bandA, bandB] [(bandA, 3)] [(bandB, 1), (bandA, -1)] 1 rfl

/-- Claim C8 (amended): when no new-ready band exists and some input band
is unready, the pass restricts its working map to the unready bands; in
particular with the single ready band `B1` and input `{B1: 4, B3: 6}`
(`B3` unready, no new-ready band) the result is `{B3: -6, B1: +6}`. -/
theorem claimC8 :
    (∀ r : Nat → Nat, reassignSubtasks stOneA r [(bandA, 4), (bandC, 6)]
      = .ok [(bandC, -6), (bandA, 6)])
    ∧ (∀ (fb : List Band) (fq : List (Band × Int)),
      newReadyOf fb fq = [] → unreadyOf fb fq ≠ [] →
      workingQ fb fq = (unreadyOf fb fq).map (fun k => (k, lookupD fq k 0))) := by
  constructor
  · intro r
    rfl
  · intro fb fq h1 h2
    rw [workingQ, if_pos ⟨h1, h2⟩]

/-- Counterexample to C8's instance as stated: with ready bands `B1, B2`
and input `{B1: 4, B3: 6}`, band `B2` is new-ready (ready yet absent from
the input), so the working set is not restricted to `{B3}`: the result is
`{B3: -6, B1: +1, B2: +5}` — no band receives the claimed `+6`. -/
theorem claimC8_cex :
    reassignSubtasks stS1 r0 [(bandA, 4), (bandC, 6)]
        = .ok [(bandC, -6), (bandA, 1), (bandB, 5)]
      ∧ ∀ p ∈ [(bandC, (-6 : Int)), (bandA, 1), (bandB, 5)], p.2 ≠ 6 :=
  ⟨rfl, by decide⟩

/-- Witness for C8 (amended): the restriction branch taken at the
amended instance. -/
theorem claimC8_witness :
    workingQ [bandA] [(bandA, 4), (bandC, 6)]
      = (unreadyOf [bandA] [(bandA, 4), (bandC, 6)]).map
          (fun k => (k, lookupD [(bandA, (4 : Int)), (bandC, 6)] k 0)) :=
  claimC8.2 [bandA] [(bandA, 4), (bandC, 6)] rfl (by decide)

theorem groupRuns_head {α κ : Type} [DecidableEq κ] (key : α → κ) (b : α)
    (t : List α) : ∃ g gs, groupRuns key (b :: t) = (key b, g) :: gs := by
  cases hg : groupRuns key t with
  | nil =>
    refine ⟨[b], [], ?_⟩
    simp only [groupRuns]
    rw [hg]
  | cons p rest =>
    obtain ⟨k0, g0⟩ := p
    by_cases hk : key b = k0
    · refine ⟨b :: g0, rest, ?_⟩
      simp only [groupRuns]
      rw [hg]
      simp only [if_pos hk]
      rw [hk]
    · refine ⟨[b], (k0, g0) :: rest, ?_⟩
      simp only [groupRuns]
      rw [hg]
      simp only [if_neg hk]

theorem lookupD_groupRuns {α κ : Type} [DecidableEq κ] (key : α → κ)
    (le : α → α → Prop) (kle : κ → κ → Prop)
    (hmono : ∀ a b, le a b → kle (key a) (key b))
    (kantisymm : ∀ x y : κ, kle x y → kle y x → x = y) :
    ∀ (l : List α), l.Pairwise le → ∀ k,
      lookupD (groupRuns key l) k [] = l.filter (fun a => decide (key a = k)) := by
  intro l
  induction l with
  | nil =>
    intro _ k
    rfl
  | cons a as ih =>
    intro hp k
    obtain ⟨hhead, htail⟩ := List.pairwise_cons.mp hp
    cases as with
    | nil =>
      by_cases hk : key a = k
      · simp [groupRuns, lookupD, hk]
      · simp [groupRuns, lookupD, hk]
    | cons b t =>
      have hbt := ih htail
      obtain ⟨g, gs, hgr⟩ := groupRuns_head key b t
      by_cases hab : key a = key b
      · have hstep : groupRuns key (a :: b :: t)
            = (match groupRuns key (b :: t) with
               | [] => [(key a, [a])]
               | (k0, g0) :: rest =>
                 if key a = k0 then (k0, a :: g0) :: rest
                 else (key a, [a]) :: (k0, g0) :: rest) := rfl
        have hg2 : groupRuns key (a :: b :: t) = (key b, a :: g) :: gs := by
          rw [hstep, hgr]
          simp only [if_pos hab]
        rw [hg2]
        by_cases hk : key b = k
        · have hg : g = (b :: t).filter (fun x => decide (key x = k)) := by
            have hthis := hbt k
            rw [hgr] at hthis
            simpa [lookupD, hk] using hthis
          have hfil : (a :: b :: t).filter (fun x => decide (key x = k))
              = a :: (b :: t).filter (fun x => decide (key x = k)) := by
            rw [List.filter_cons_of_pos]
            simp [hab, hk]
          rw [hfil, ← hg]
          simp [lookupD, hk]
        · have hfil : (a :: b :: t).filter (fun x => decide (key x = k))
              = (b :: t).filter (fun x => decide (key x = k)) := by
            rw [List.filter_cons_of_neg]
            simp [hab, hk]
          rw [hfil]
          have hthis := hbt k
          rw [hgr] at hthis
          simpa [lookupD, hk] using hthis
      · have hstep : groupRuns key (a :: b :: t)
            = (match groupRuns key (b :: t) with
               | [] => [(key a, [a])]
               | (k0, g0) :: rest =>
                 if key a = k0 then (k0, a :: g0) :: rest
                 else (key a, [a]) :: (k0, g0) :: rest) := rfl
        have hg2 : groupRuns key (a :: b :: t)
            = (key a, [a]) :: (key b, g) :: gs := by
          rw [hstep, hgr]
          simp only [if_neg hab]
        rw [hg2]
        by_cases hk : key a = k
        · have hnone : ∀ x ∈ b :: t, ¬ key x = k := by
            intro x hx
            rcases List.mem_cons.mp hx with he | he
            · rw [he]
              intro hxk
              exact hab (hk.trans hxk.symm)
            · intro hxk
              have h1 : kle (key a) (key b) :=
                hmono a b (hhead b (List.mem_cons_self b t))
              have h2 : kle (key b) (key x) :=
                hmono b x ((List.pairwise_cons.mp htail).1 x he)
              have h3 : key x = key a := hxk.trans hk.symm
              rw [h3] at h2
              exact hab (kantisymm _ _ h1 h2)
          have hfil0 : (b :: t).filter (fun x => decide (key x = k)) = [] := by
            rw [List.filter_eq_nil_iff]
            intro x hx
            simp
            exact hnone x hx
          have hfil : (a :: b :: t).filter (fun x => decide (key x = k)) = [a] := by
            rw [List.filter_cons_of_pos]
            · rw [hfil0]
            · simp [hk]
          rw [hfil]
          simp [lookupD, hk]
        · have hthis := hbt k
          rw [hgr] at hthis
          have hfil : (a :: b :: t).filter (fun x => decide (key x = k))
              = (b :: t).filter (fun x => decide (key x = k)) := by
            rw [List.filter_cons_of_neg]
            simp [hk]
          rw [hfil, ← hthis]
          simp [lookupD, hk, hab]

theorem strLe_antisymm (x y : String) (h1 : strLtB x y = true ∨ x = y)
    (h2 : strLtB y x = true ∨ y = x) : x = y := by
  rcases h1 with h1 | h1
  · rcases h2 with h2 | h2
    · rw [strLtB_asymm x y h1] at h2
      simp at h2
    · exact h2.symm
  · exact h1

theorem lookupD_map_group {κ α β : Type} [DecidableEq κ] (f : α → β) :
    ∀ (l : List (κ × List α)) (k : κ),
      lookupD (l.map (fun kg => (kg.1, kg.2.map f))) k [] = (lookupD l k []).map f := by
  intro l
  induction l with
  | nil =>
    intro k
    rfl
  | cons p t ih =>
    intro k
    by_cases h : p.1 = k
    · simp [lookupD, h]
    · simp [lookupD, h, ih]

theorem filter_fst_pairs {κ α : Type} [DecidableEq κ] (key : α → κ) (k : κ) :
    ∀ l : List α, (l.map (fun b => (key b, b))).filter (fun p => decide (p.1 = k))
      = (l.filter (fun b => decide (key b = k))).map (fun b => (key b, b)) := by
  intro l
  induction l with
  | nil => rfl
  | cons a t ih =>
    by_cases h : key a = k
    · simp [h, ih]
    · simp [h, ih]

theorem map_snd_pairs {κ α : Type} (key : α → κ) (l : List α) :
    (l.map (fun b => (key b, b))).map Prod.snd = l := by
  induction l with
  | nil => rfl
  | cons a t ih => simp only [List.map_cons, ih]

theorem deviceTag_eq_numa (b : Band) :
    decide (deviceTag b = "numa") = hasPref b.2 "numa" := by
  rw [deviceTag]
  cases h : hasPref b.2 "numa"
  · simp [h]
  · simp [h]

theorem deviceTag_eq_gpu (b : Band) :
    decide (deviceTag b = "gpu") = !(hasPref b.2 "numa") := by
  rw [deviceTag]
  cases h : hasPref b.2 "numa"
  · simp [h]
  · simp [h]

theorem device_lookup (bands : List Band) (tg : String) (P : Band → Bool)
    (hP : ∀ b, decide (deviceTag b = tg) = P b) :
    lookupD (updateBands bands).deviceTypeToBands tg []
      = List.insertionSort bandLE (bands.filter P) := by
  have hsp : (List.insertionSort tagBandLE
      (bands.map (fun b => (deviceTag b, b)))).Pairwise tagBandLE :=
    @List.sorted_insertionSort _ tagBandLE _ ⟨tagBandLE_total⟩ ⟨tagBandLE_trans⟩ _
  have hproj : (updateBands bands).deviceTypeToBands
      = (groupRuns Prod.fst
          (List.insertionSort tagBandLE (bands.map (fun b => (deviceTag b, b))))).map
        (fun kg => (kg.1, kg.2.map Prod.snd)) := rfl
  rw [hproj, lookupD_map_group]
  rw [lookupD_groupRuns Prod.fst tagBandLE (fun x y => strLtB x y = true ∨ x = y)
    (fun a b h => h.imp (fun x => x) (fun he => he.1)) strLe_antisymm
    _ hsp tg]
  have hfSorted : ((List.insertionSort tagBandLE
      (bands.map (fun b => (deviceTag b, b)))).filter
        (fun p => decide (p.1 = tg))).Pairwise tagBandLE :=
    List.Pairwise.filter _ hsp
  have hPw : (((List.insertionSort tagBandLE
      (bands.map (fun b => (deviceTag b, b)))).filter
        (fun p => decide (p.1 = tg))).map Prod.snd).Pairwise bandLE := by
    rw [List.pairwise_map]
    refine hfSorted.imp_of_mem ?_
    intro p q hp hq hle
    have hp1 : p.1 = tg := of_decide_eq_true (List.mem_filter.mp hp).2
    have hq1 : q.1 = tg := of_decide_eq_true (List.mem_filter.mp hq).2
    rcases hle with hlt | ⟨_, hb⟩
    · rw [hp1, hq1] at hlt
      rw [strLtB_irrefl] at hlt
      simp at hlt
    · exact hb
  have hperm : (((List.insertionSort tagBandLE
      (bands.map (fun b => (deviceTag b, b)))).filter
        (fun p => decide (p.1 = tg))).map Prod.snd).Perm
      (List.insertionSort bandLE (bands.filter P)) := by
    have hp1 := ((List.perm_insertionSort tagBandLE
      (bands.map (fun b => (deviceTag b, b)))).filter
        (fun p => decide (p.1 = tg))).map Prod.snd
    have he : ((bands.map (fun b => (deviceTag b, b))).filter
        (fun p => decide (p.1 = tg))).map Prod.snd
        = bands.filter P := by
      rw [filter_fst_pairs deviceTag tg bands]
      rw [show bands.filter (fun b => decide (deviceTag b = tg)) = bands.filter P from
        List.filter_congr (fun b _ => hP b)]
      exact map_snd_pairs deviceTag (bands.filter P)
    rw [he] at hp1
    exact hp1.trans (List.perm_insertionSort bandLE _).symm
  exact @List.eq_of_perm_of_sorted _ bandLE ⟨bandLE_antisymm⟩ _ _ hperm hPw
    (@List.sorted_insertionSort _ bandLE _ ⟨bandLE_total⟩ ⟨bandLE_trans⟩ _)

/-- Claim C10: after every `_update_bands(bands)`, the two indexes are
consistent with the band list: `_address_to_bands` maps each address to
exactly its bands in sorted order, and `_device_type_to_bands` maps
`"numa"` to the bands whose name starts with `numa` and `"gpu"` to all
the others (each in sorted order), the two groups together being a
permutation of the band list. -/
theorem claimC10 (bands : List Band) (addr : String) :
    lookupD (updateBands bands).addressToBands addr []
        = List.insertionSort bandLE (bands.filter (fun b => decide (b.1 = addr)))
      ∧ lookupD (updateBands bands).deviceTypeToBands "numa" []
        = List.insertionSort bandLE (bands.filter (fun b => hasPref b.2 "numa"))
      ∧ lookupD (updateBands bands).deviceTypeToBands "gpu" []
        = List.insertionSort bandLE (bands.filter (fun b => !(hasPref b.2 "numa")))
      ∧ (lookupD (updateBands bands).deviceTypeToBands "numa" []
          ++ lookupD (updateBands bands).deviceTypeToBands "gpu" []).Perm bands := by
  have hnuma := device_lookup bands "numa" (fun b => hasPref b.2 "numa") deviceTag_eq_numa
  have hgpu := device_lookup bands "gpu" (fun b => !(hasPref b.2 "numa")) deviceTag_eq_gpu
  refine ⟨?_, hnuma, hgpu, ?_⟩
  · have hsorted : (List.insertionSort bandLE bands).Pairwise bandLE :=
      @List.sorted_insertionSort _ bandLE _ ⟨bandLE_total⟩ ⟨bandLE_trans⟩ bands
    have hproj : (updateBands bands).addressToBands
        = groupRuns Prod.fst (List.insertionSort bandLE bands) := rfl
    rw [hproj]
    rw [lookupD_groupRuns Prod.fst bandLE (fun x y => strLtB x y = true ∨ x = y)
      (fun a b h => h.imp (fun x => x) (fun he => he.1)) strLe_antisymm
      _ hsorted addr]
    have hfs : ((List.insertionSort bandLE bands).filter
        (fun b => decide (b.1 = addr))).Pairwise bandLE :=
      List.Pairwise.filter _ hsorted
    have hperm : ((List.insertionSort bandLE bands).filter
        (fun b => decide (b.1 = addr))).Perm
        (List.insertionSort bandLE (bands.filter (fun b => decide (b.1 = addr)))) :=
      ((List.perm_insertionSort bandLE bands).filter _).trans
        (List.perm_insertionSort bandLE _).symm
    exact @List.eq_of_perm_of_sorted _ bandLE ⟨bandLE_antisymm⟩ _ _ hperm hfs
      (@List.sorted_insertionSort _ bandLE _ ⟨bandLE_total⟩ ⟨bandLE_trans⟩ _)
  · rw [hnuma, hgpu]
    have h1 : (List.insertionSort bandLE
        (bands.filter (fun b => hasPref b.2 "numa")) ++
        List.insertionSort bandLE
          (bands.filter (fun b => !(hasPref b.2 "numa")))).Perm
        ((bands.filter (fun b => hasPref b.2 "numa")) ++
          (bands.filter (fun b => !(hasPref b.2 "numa")))) :=
      (List.perm_insertionSort bandLE _).append (List.perm_insertionSort bandLE _)
    exact h1.trans (List.filter_append_perm _ bands)
